import Mathlib

/-!
Verification of the acquisition-cycle controller of `captura_oficial_png.py`
(repository RPI_OAK4W).  The script's `main` loop is shallowly embedded:
pure helpers become Lean functions, the stateful capture loop becomes
explicit state passing over a `St` record, wall-clock time is a `Nat`
millisecond counter advanced exactly at the script's `time.sleep` calls,
and each camera's asynchronous frame queue is an arrival-time schedule
consumed by an explicit per-camera counter.  Image-processing calls
(`cv2.cvtColor(...).mean()`, `cv2.Laplacian(...).var()`) are modelled as
fields of an abstract `Frame` record, since pixel math is outside the
controller.  Definitions come first, then the theorems (and their
concrete witness runs) that settle the specified properties.
-/

/-! ## Definitions: the shallow embedding -/

/-- ASCII whitespace, as stripped by Python's `int(str)` conversion. -/
def pyIsSpace (c : Char) : Bool :=
  c = ' ' || c = '\t' || c = '\n' || c = '\r' || c = '\x0b' || c = '\x0c'

/-- Digit run with optional single underscores between digits, accumulating
the value (Python integer-literal digit syntax after the first digit). -/
def pyDigitsCore : Nat → List Char → Option Nat
  | acc, [] => some acc
  | acc, c :: rest =>
    if c.isDigit then pyDigitsCore (acc * 10 + (c.toNat - 48)) rest
    else if c = '_' then
      match rest with
      | [] => none
      | d :: rest' =>
        if d.isDigit then pyDigitsCore (acc * 10 + (d.toNat - 48)) rest' else none
    else none

/-- A nonempty digit run (first character must be a digit). -/
def pyParseDigits : List Char → Option Nat
  | [] => none
  | c :: rest => if c.isDigit then pyDigitsCore (c.toNat - 48) rest else none

/-- Model of Python's `int(s)` on ASCII input: surrounding whitespace is
ignored, an optional sign precedes a nonempty digit run; anything else
raises `ValueError`, modelled as `none`. -/
def pyParseInt (s : String) : Option Int :=
  let cs := (((s.toList.dropWhile pyIsSpace).reverse.dropWhile pyIsSpace).reverse)
  match cs with
  | '+' :: rest => (pyParseDigits rest).map (fun n => (n : Int))
  | '-' :: rest => (pyParseDigits rest).map (fun n => -(n : Int))
  | rest => (pyParseDigits rest).map (fun n => (n : Int))

/-- `get_png_compression`: reads `PNG_COMPRESSION` (the `env` argument is
the environment lookup result), defaults to `"3"` when absent, clamps a
parsed value into `[0, 9]`, and returns `3` on `ValueError`. -/
def get_png_compression (env : Option String) : Int :=
  match pyParseInt (env.getD "3") with
  | some v => max 0 (min 9 v)
  | none => 3

/-- A decoded image, abstracted to the two metrics the controller reads:
`brightness` models `cv2.cvtColor(...).mean()` and `sharpness` models
`cv2.Laplacian(gray, cv2.CV_64F).var()`. -/
structure Frame where
  brightness : Rat
  sharpness : Rat
deriving DecidableEq

/-- A frame held by the controller, tagged with its 0-based pop index in
its camera's queue (the instrumentation used to state warm-up facts). -/
structure Held where
  idx : Nat
  frame : Frame
deriving DecidableEq

/-- Per-camera queue schedule: the frames the camera driver will enqueue,
in FIFO order, each with its arrival time in milliseconds. -/
abbrev Sched := String → List (Nat × Frame)

/-- Configuration surface of `main` relevant to the capture loop
(headless mode is assumed; GUI key handling is out of scope). -/
structure Config where
  wait_all : Bool
  wait_timeout : Nat
  warmup_frames : Nat
  min_frames_each : Nat
  min_brightness : Option Rat
  brightness_retry : Nat
  brightness_wait : Nat
  min_sharpness : Option Rat
  sharpness_frames : Nat
  one_shot : Bool
  auto_interval : Option Nat

/-- Process-lifetime mutable state of `main`'s loop: `warmup_counter`,
`per_cam_frames`, the per-camera count of queue pops performed so far,
the wall clock, `last_auto_capture` and `capture_count`. -/
structure St where
  warmup : String → Nat
  perCam : String → Nat
  consumed : String → Nat
  now : Nat
  lastAuto : Nat
  captureCount : Nat

/-- Pointwise update of a per-camera counter table. -/
def upd (f : String → Nat) (c : String) (v : Nat) : String → Nat :=
  fun x => if x = c then v else f x

/-- Initial state at `pipeline.start()`. -/
def initSt : St :=
  { warmup := fun _ => 0, perCam := fun _ => 0, consumed := fun _ => 0,
    now := 0, lastAuto := 0, captureCount := 0 }

/-- `queue.has()` for camera `c` after `k` pops at wall-clock `now`:
the next enqueued frame, if any, has already arrived. -/
def queueHas (sched : Sched) (c : String) (k : Nat) (now : Nat) : Bool :=
  match (sched c)[k]? with
  | some tf => decide (tf.1 ≤ now)
  | none => false

/-- `queue.get().getCvFrame()` for camera `c` at pop index `k`. -/
def popFrame (sched : Sched) (c : String) (k : Nat) : Frame :=
  match (sched c)[k]? with
  | some tf => tf.2
  | none => { brightness := 0, sharpness := 0 }

/-- Association-list lookup on the `frames` dict (keys are sockets). -/
def alook (l : List (String × Held)) (k : String) : Option Held :=
  match l with
  | [] => none
  | p :: r => if p.1 = k then some p.2 else alook r k

/-- Python-dict assignment `d[c] = h`: replaces in place if the key is
present, appends otherwise. -/
def dictSet (l : List (String × Held)) (c : String) (h : Held) :
    List (String × Held) :=
  match l with
  | [] => [(c, h)]
  | p :: r => if p.1 = c then (c, h) :: r else p :: dictSet r c h

/-- Observable reports of the loop (the `print` calls the claims refer
to), plus the emitted batch kept separately in `RunOut.batches`. -/
inductive Event where
  | waitAllTimeout (captured : List String)
  | postponed (lacking : List String)
  | darkRetry (dark : List (String × Rat))
  | stillDark (retryBound : Nat) (dark : List (String × Rat))
  | sharpRetry (avg : Rat) (minS : Rat)
  | sharpOk (avg : Rat)
deriving DecidableEq

/-- Accumulator of one poll pass over all cameras. -/
structure PassOut where
  frames : List (String × Held)
  st : St
  acquired : Bool

/-- One camera's poll inside a pass (lines 187-197 of the script):
pop only if the socket has no frame this cycle and the queue has one;
a frame within warm-up bumps `warmup_counter` and is discarded, otherwise
`per_cam_frames` is bumped and the frame is stored. -/
def pollOne (cfg : Config) (sched : Sched) (c : String) (acc : PassOut) : PassOut :=
  if alook acc.frames c = none ∧ queueHas sched c (acc.st.consumed c) acc.st.now = true then
    let k := acc.st.consumed c
    let st1 : St := { acc.st with consumed := upd acc.st.consumed c (k + 1) }
    if st1.warmup c < cfg.warmup_frames then
      { acc with st := { st1 with warmup := upd st1.warmup c (st1.warmup c + 1) } }
    else
      { frames := acc.frames ++ [(c, { idx := k, frame := popFrame sched c k })],
        st := { st1 with perCam := upd st1.perCam c (st1.perCam c + 1) },
        acquired := true }
  else acc

/-- One poll pass over every camera in socket order. -/
def pollPass (cfg : Config) (sched : Sched) (cams : List String)
    (frames : List (String × Held)) (st : St) : PassOut :=
  cams.foldl (fun acc c => pollOne cfg sched c acc) ⟨frames, st, false⟩

/-- Result of the collecting loop. -/
structure CollectOut where
  frames : List (String × Held)
  st : St
  events : List Event

/-- The collecting loop (lines 185-232): without `wait_all` a single pass;
with `wait_all` it repeats until a frame is held for every camera or the
elapsed time since `start` reaches `wait_timeout`, sleeping 5 ms whenever a
pass acquired nothing.  On a one-shot timeout with cameras missing, the
warning listing the captured sockets is emitted.  `none` = fuel ran out. -/
def collect (cfg : Config) (sched : Sched) (cams : List String) (start : Nat) :
    Nat → List (String × Held) → St → Option CollectOut
  | 0, _, _ => none
  | fuel+1, frames, st =>
    let p := pollPass cfg sched cams frames st
    if cfg.wait_all = false then some { frames := p.frames, st := p.st, events := [] }
    else if p.frames.length = cams.length ∨ cfg.wait_timeout ≤ p.st.now - start then
      if p.frames.length ≠ cams.length ∧ cfg.one_shot = true then
        some { frames := p.frames, st := p.st,
               events := [Event.waitAllTimeout (p.frames.map Prod.fst)] }
      else some { frames := p.frames, st := p.st, events := [] }
    else
      collect cfg sched cams start fuel p.frames
        (if p.acquired = true then p.st else { p.st with now := p.st.now + 5 })

/-- Result of a quality-gate loop: the (possibly refreshed) frames, the
advanced pop counters and clock, the reports, and how many retry passes
(sleep + re-poll) were performed. -/
structure GateOut where
  captured : List (String × Held)
  consumed : String → Nat
  now : Nat
  events : List Event
  retries : Nat

/-- The re-poll performed by both retry loops (lines 284-287, 304-307):
every camera whose queue has a frame gets it popped and stored, bypassing
the warm-up counter and `per_cam_frames`. -/
def repollStep (sched : Sched) (now : Nat)
    (acc : List (String × Held) × (String → Nat)) (c : String) :
    List (String × Held) × (String → Nat) :=
  if queueHas sched c (acc.2 c) now = true then
    (dictSet acc.1 c { idx := acc.2 c, frame := popFrame sched c (acc.2 c) },
     upd acc.2 c (acc.2 c + 1))
  else acc

/-- Re-poll all cameras in socket order. -/
def repollAll (sched : Sched) (now : Nat) (cams : List String)
    (captured : List (String × Held)) (consumed : String → Nat) :
    List (String × Held) × (String → Nat) :=
  cams.foldl (repollStep sched now) (captured, consumed)

/-- The sockets whose held frame has mean luminance below `mb`, with the
measured values (the `too_dark` list of line 269-274). -/
def tooDarkList (mb : Rat) (captured : List (String × Held)) : List (String × Rat) :=
  (captured.filter (fun p => p.2.frame.brightness < mb)).map
    (fun p => (p.1, p.2.frame.brightness))

/-- The brightness gate (lines 267-287).  Called with `gas = bretry + 1`;
`gas` equals `brightness_retry + 1 - attempt` of the script, so the
structural base case is the loop condition `attempt <= brightness_retry`
turning false.  Each retry sleeps `bwait` ms and then re-polls every
queue; when the bound is exhausted with frames still dark the condition is
reported and the loop exits, accepting the batch. -/
def brightLoop (sched : Sched) (cams : List String) (mb : Rat)
    (bretry bwait : Nat) :
    Nat → List (String × Held) → (String → Nat) → Nat → GateOut
  | 0, captured, consumed, now =>
    { captured := captured, consumed := consumed, now := now, events := [], retries := 0 }
  | gas+1, captured, consumed, now =>
    let td := tooDarkList mb captured
    if td = [] then
      { captured := captured, consumed := consumed, now := now, events := [], retries := 0 }
    else if gas = 0 then
      { captured := captured, consumed := consumed, now := now,
        events := [Event.stillDark bretry td], retries := 0 }
    else
      let now' := now + bwait
      let rp := repollAll sched now' cams captured consumed
      let r := brightLoop sched cams mb bretry bwait gas rp.1 rp.2 now'
      { r with events := Event.darkRetry td :: r.events, retries := r.retries + 1 }

/-- The sharpness values averaged by the gate: the first
`sharpness_frames` held frames in dict order (line 294). -/
def sharpVals (sframes : Nat) (captured : List (String × Held)) : List Rat :=
  (captured.take sframes).map (fun p => p.2.frame.sharpness)

/-- The sharpness gate (lines 289-314): at most 3 retries, each reporting
the low average, sleeping 300 ms and re-polling every queue; exits as soon
as the average reaches `ms`, the values list is empty, or the bound is
exhausted — the batch is accepted in every case. -/
def sharpLoop (sched : Sched) (cams : List String) (ms : Rat) (sframes : Nat) :
    Nat → List (String × Held) → (String → Nat) → Nat → GateOut
  | 0, captured, consumed, now =>
    { captured := captured, consumed := consumed, now := now, events := [], retries := 0 }
  | gas+1, captured, consumed, now =>
    let vals := sharpVals sframes captured
    if vals = [] then
      { captured := captured, consumed := consumed, now := now, events := [], retries := 0 }
    else
      let avg := vals.sum / (vals.length : Rat)
      if avg < ms then
        let now' := now + 300
        let rp := repollAll sched now' cams captured consumed
        let r := sharpLoop sched cams ms sframes gas rp.1 rp.2 now'
        { r with events := Event.sharpRetry avg ms :: r.events, retries := r.retries + 1 }
      else
        { captured := captured, consumed := consumed, now := now,
          events := [Event.sharpOk avg], retries := 0 }

/-- Result of one outer-loop iteration. -/
structure CycleOut where
  st : St
  events : List Event
  batch : Option (List (String × Held))
  exitLoop : Bool

/-- The capture block (lines 256-334) is entered when a capture was
triggered with frames held: the `min_frames_each` readiness check over
every camera, then the two optional quality gates, then the unconditional
emission of the batch (and loop exit when one-shot).  `gate1` is its
optional brightness gate. -/
def gate1 (cfg : Config) (sched : Sched) (cams : List String)
    (frames : List (String × Held)) (consumed : String → Nat) (now : Nat) : GateOut :=
  match cfg.min_brightness with
  | some mb =>
    brightLoop sched cams mb cfg.brightness_retry cfg.brightness_wait
      (cfg.brightness_retry + 1) frames consumed now
  | none =>
    { captured := frames, consumed := consumed, now := now, events := [], retries := 0 }

/-- The optional sharpness gate of the capture block. -/
def gate2 (cfg : Config) (sched : Sched) (cams : List String)
    (captured : List (String × Held)) (consumed : String → Nat) (now : Nat) : GateOut :=
  match cfg.min_sharpness with
  | some ms => sharpLoop sched cams ms cfg.sharpness_frames 3 captured consumed now
  | none =>
    { captured := captured, consumed := consumed, now := now, events := [], retries := 0 }

/-- The capture block itself (see the section comment above). -/
def captureStage (cfg : Config) (sched : Sched) (cams : List String)
    (frames : List (String × Held)) (st : St) : CycleOut :=
  let lacking := cams.filter (fun c => st.perCam c < cfg.min_frames_each)
  if lacking = [] then
    let g1 : GateOut := gate1 cfg sched cams frames st.consumed st.now
    let g2 : GateOut := gate2 cfg sched cams g1.captured g1.consumed g1.now
    let st3 : St :=
      { st with consumed := g2.consumed, now := g2.now,
                captureCount := st.captureCount + 1 }
    { st := st3,
      events := g1.events ++ g2.events,
      batch := some g2.captured,
      exitLoop := cfg.one_shot }
  else
    { st := st, events := [Event.postponed lacking], batch := none, exitLoop := false }

/-- The automatic-interval trigger of the outer loop in headless mode
(`headless and auto_interval and frames` with the elapsed-interval
check). -/
def autoFire (cfg : Config) (co : CollectOut) : Bool :=
  match cfg.auto_interval with
  | some iv =>
    decide (0 < iv) && decide (co.frames ≠ []) && decide (iv ≤ co.st.now - co.st.lastAuto)
  | none => false

/-- State after trigger evaluation and the 10 ms headless sleep:
`last_auto_capture` is stamped when the automatic trigger fired. -/
def postCollectSt (cfg : Config) (co : CollectOut) : St :=
  { co.st with now := co.st.now + 10,
               lastAuto := if autoFire cfg co = true then co.st.now else co.st.lastAuto }

/-- Whether this iteration wants a capture: the automatic trigger or the
first-time one-shot trigger. -/
def doCapture (cfg : Config) (co : CollectOut) : Bool :=
  autoFire cfg co ||
    (cfg.one_shot && decide (co.frames ≠ []) &&
      decide ((postCollectSt cfg co).captureCount = 0))

/-- The trigger-and-capture half of one outer iteration. -/
def cycleStep (cfg : Config) (sched : Sched) (cams : List String)
    (co : CollectOut) : CycleOut :=
  if doCapture cfg co = true ∧ co.frames ≠ [] then
    let r := captureStage cfg sched cams co.frames (postCollectSt cfg co)
    { r with events := co.events ++ r.events }
  else
    { st := postCollectSt cfg co, events := co.events, batch := none, exitLoop := false }

/-- One iteration of the outer loop: collect, then trigger evaluation and
the capture block. -/
def cycle (cfg : Config) (sched : Sched) (cams : List String) (cf : Nat)
    (st : St) : Option CycleOut :=
  match collect cfg sched cams st.now cf [] st with
  | none => none
  | some co => some (cycleStep cfg sched cams co)

/-- Accumulated observations of a bounded run of the outer loop. -/
structure RunOut where
  st : St
  events : List Event
  batches : List (List (String × Held))

/-- Run `n` outer iterations (or fewer if one-shot exits), accumulating
events and emitted batches. -/
def runLoop (cfg : Config) (sched : Sched) (cams : List String) (cf : Nat) :
    Nat → St → RunOut
  | 0, st => { st := st, events := [], batches := [] }
  | n+1, st =>
    match cycle cfg sched cams cf st with
    | none => { st := st, events := [], batches := [] }
    | some co =>
      let bs := match co.batch with
        | some b => [b]
        | none => []
      if co.exitLoop = true then { st := co.st, events := co.events, batches := bs }
      else
        let r := runLoop cfg sched cams cf n co.st
        { st := r.st, events := co.events ++ r.events, batches := bs ++ r.batches }

/-- The runtime capability probe over the camera node: which of the three
manual-focus methods `hasattr` finds. -/
structure CamCaps where
  hasSetManualFocus : Bool
  hasSetFocus : Bool
  hasSetLensPosition : Bool
deriving DecidableEq

/-- `supported = any(hasattr(cam_node, attr) for attr in [...])` (line 125). -/
def focusSupported (cp : CamCaps) : Bool :=
  cp.hasSetManualFocus || cp.hasSetFocus || cp.hasSetLensPosition

/-- One scan step (lines 163-165): replace the best candidate only on a
strictly greater sharpness. -/
def scanStep (acc : Rat × Option Int) (s : Int × Rat) : Rat × Option Int :=
  if acc.1 < s.2 then (s.2, some s.1) else acc

/-- The position selected by the scan over the recorded (position,
sharpness) samples, starting from `best_var = -1.0, best_pos = None`. -/
def bestFocus (samples : List (Int × Rat)) : Option Int :=
  (samples.foldl scanStep (-1, none)).2

/-- Keep the earlier sample `s` unless the later candidate is strictly
sharper (spec-side combinator for `specBestFocus`). -/
def specPick (s : Int × Rat) : Option (Int × Rat) → Option (Int × Rat)
  | none => some s
  | some t => if s.2 < t.2 then some t else some s

/-- Modelled from the spec words only for comparison with `bestFocus`:
"select the position with the maximum recorded score (ties broken by
first-seen)", as a primitive recursion keeping the earlier sample unless a
later one is strictly sharper. -/
def specBestFocus : List (Int × Rat) → Option (Int × Rat)
  | [] => none
  | s :: rest => specPick s (specBestFocus rest)

/-- Outcome of the focus scan for one camera. -/
inductive FocusOutcome where
  | notFound
  | unsupported
  | scanned (commands : List Int) (applied : Option Int)
deriving DecidableEq

/-- The actuator commands issued for a camera during its scan. -/
def outcomeCommands : FocusOutcome → List Int
  | .scanned cmds _ => cmds
  | _ => []

/-- The per-camera focus scan (lines 119-178): a missing node is reported,
a node without any focus method is skipped before any actuator command;
otherwise every candidate position is commanded, the sharpness samples
that could be measured are folded into the best position, and the winner
(if any) is applied.  `meas c p` abstracts the settle-delay/0.5 s frame
sampling at position `p` (`none` = no frame arrived, no sample recorded). -/
def focusScanCam (caps : String → Option CamCaps) (meas : String → Int → Option Rat)
    (positions : List Int) (c : String) : FocusOutcome :=
  match caps c with
  | none => .notFound
  | some cp =>
    if focusSupported cp = false then
      .unsupported
    else
      let samples := positions.filterMap (fun p => (meas c p).map (fun v => (p, v)))
      match bestFocus samples with
      | some b => .scanned (positions ++ [b]) (some b)
      | none => .scanned positions none

/-- The scan over all targeted cameras (line 118-119). -/
def focusScanAll (caps : String → Option CamCaps) (meas : String → Int → Option Rat)
    (positions : List Int) (targets : List String) : List (String × FocusOutcome) :=
  targets.map (fun c => (c, focusScanCam caps meas positions c))

/-- Concrete capability table for the C9 witness: camera A has no focus
method, camera B has `setManualFocus`. -/
def capsW : String → Option CamCaps :=
  fun c =>
    if c = "A" then some { hasSetManualFocus := false, hasSetFocus := false,
                           hasSetLensPosition := false }
    else some { hasSetManualFocus := true, hasSetFocus := false,
                hasSetLensPosition := false }

/-- Concrete measurement oracle for the C9 witness. -/
def measW : String → Int → Option Rat :=
  fun _ p => if p = 50 then some 12 else some 30

/-- A stand-in decoded image for the scenario (quality gates disabled). -/
def f100 : Frame := { brightness := 100, sharpness := 100 }

/-- Scenario schedule: camera A enqueues frames at t = 0, 1, 2 ms and
camera B at t = 5, 6 ms. -/
def schedC1 : Sched := fun c =>
  if c = "A" then [(0, f100), (1, f100), (2, f100)]
  else if c = "B" then [(5, f100), (6, f100)]
  else []

/-- Scenario configuration: `warmup_frames = 2`, `min_frames_each = 1`,
no quality thresholds, `wait_all = false`, one-shot trigger. -/
def cfgC1 : Config :=
  { wait_all := false, wait_timeout := 2000, warmup_frames := 2, min_frames_each := 1,
    min_brightness := none, brightness_retry := 2, brightness_wait := 500,
    min_sharpness := none, sharpness_frames := 3, one_shot := true,
    auto_interval := none }

/-- Dark test frame for the C4 witness. -/
def fDark : Frame := { brightness := 10, sharpness := 100 }

/-- Schedule that keeps serving dark frames on camera A. -/
def schedDark : Sched := fun c =>
  if c = "A" then [(0, fDark), (0, fDark), (0, fDark)] else []

/-- A state in which camera A has already passed warm-up and the
readiness check. -/
def stGate : St :=
  { warmup := fun _ => 2, perCam := fun _ => 1, consumed := fun _ => 1,
    now := 0, lastAuto := 0, captureCount := 0 }

/-- Gate-scenario configuration with `min_brightness = 50`. -/
def cfgGate : Config :=
  { wait_all := false, wait_timeout := 2000, warmup_frames := 2, min_frames_each := 1,
    min_brightness := some 50, brightness_retry := 2, brightness_wait := 500,
    min_sharpness := none, sharpness_frames := 3, one_shot := true,
    auto_interval := none }

/-- Blurry test frame for the C5 witness. -/
def fBlur : Frame := { brightness := 100, sharpness := 10 }

/-- Schedule that keeps serving blurry frames on camera A. -/
def schedBlur : Sched := fun c =>
  if c = "A" then [(0, fBlur), (0, fBlur), (0, fBlur), (0, fBlur)] else []

/-- Gate-scenario configuration with `min_sharpness = 50`. -/
def cfgSharp : Config :=
  { wait_all := false, wait_timeout := 2000, warmup_frames := 2, min_frames_each := 1,
    min_brightness := none, brightness_retry := 2, brightness_wait := 500,
    min_sharpness := some 50, sharpness_frames := 3, one_shot := true,
    auto_interval := none }

/-- State for the C7 witness in which camera B is still below the
minimum. -/
def stLack : St :=
  { warmup := upd (fun _ => 2) "B" 2, perCam := upd (fun _ => 1) "B" 0,
    consumed := fun _ => 1, now := 0, lastAuto := 0, captureCount := 0 }

/-- Gate configuration without quality thresholds for the C7 witness. -/
def cfgMin : Config :=
  { wait_all := false, wait_timeout := 2000, warmup_frames := 2, min_frames_each := 1,
    min_brightness := none, brightness_retry := 2, brightness_wait := 500,
    min_sharpness := none, sharpness_frames := 3, one_shot := true,
    auto_interval := none }

/-- Bright frame held by camera A at the check. -/
def fBrightA : Frame := { brightness := 100, sharpness := 100 }

/-- Fresh frame waiting in camera A's queue during the retry. -/
def fBrightA2 : Frame := { brightness := 200, sharpness := 100 }

/-- Dark frame held by camera B at the check. -/
def fDarkB : Frame := { brightness := 10, sharpness := 100 }

/-- Fresh bright frame waiting in camera B's queue during the retry. -/
def fBrightB : Frame := { brightness := 60, sharpness := 100 }

/-- Schedule for the C3 scenario. -/
def schedC3 : Sched := fun c =>
  if c = "A" then [(0, fBrightA), (0, fBrightA2)]
  else if c = "B" then [(0, fDarkB), (0, fBrightB)]
  else []

/-- Held frames entering the brightness gate: A passing, B failing. -/
def capturedC3 : List (String × Held) :=
  [("A", { idx := 0, frame := fBrightA }), ("B", { idx := 0, frame := fDarkB })]

/-- Projection of the collecting loop's frames, with the input frames as
the fuel-exhaustion default. -/
def collectFramesD (cfg : Config) (sched : Sched) (cams : List String)
    (start fuel : Nat) (frames : List (String × Held)) (st : St) :
    List (String × Held) :=
  match collect cfg sched cams start fuel frames st with
  | some o => o.frames
  | none => frames

/-- The sockets currently holding a frame, in dict order. -/
def keysOf (l : List (String × Held)) : List String := l.map Prod.fst

/-- Projection of the collecting loop's final state (fuel-exhaustion
default: the input state). -/
def collectStD (cfg : Config) (sched : Sched) (cams : List String)
    (start fuel : Nat) (frames : List (String × Held)) (st : St) : St :=
  match collect cfg sched cams start fuel frames st with
  | some o => o.st
  | none => st

/-- Projection of the collecting loop's reports (fuel-exhaustion
default: no reports). -/
def collectEventsD (cfg : Config) (sched : Sched) (cams : List String)
    (start fuel : Nat) (frames : List (String × Held)) (st : St) : List Event :=
  match collect cfg sched cams start fuel frames st with
  | some o => o.events
  | none => []

/-- Wait-all scenario: camera A delivers one frame at t = 0 and camera B
never delivers. -/
def schedWait : Sched := fun c =>
  if c = "A" then [(0, f100)] else []

/-- Wait-all configuration: 20 ms timeout, no warm-up, one-shot. -/
def cfgWait : Config :=
  { wait_all := true, wait_timeout := 20, warmup_frames := 0, min_frames_each := 1,
    min_brightness := none, brightness_retry := 2, brightness_wait := 500,
    min_sharpness := none, sharpness_frames := 3, one_shot := true,
    auto_interval := none }

/-- Every held frame is at least the `(wf+1)`-th pop of its camera. -/
def FramesOk (wf : Nat) (l : List (String × Held)) : Prop :=
  ∀ p ∈ l, wf ≤ p.2.idx

/-- Counter invariant tying the three per-camera counters together:
warm-up never exceeds the pop count nor its threshold, and a camera with
a warm frame on record has finished warm-up. -/
def CtrInv (wf : Nat) (st : St) : Prop :=
  ∀ c, st.warmup c ≤ st.consumed c ∧ st.warmup c ≤ wf ∧
    (1 ≤ st.perCam c → wf ≤ st.warmup c)

/-- One-camera run for the C2 witness: warm-up 1, two frames at t = 0. -/
def schedWarm : Sched := fun c =>
  if c = "A" then [(0, f100), (0, f100)] else []

/-- Configuration for the C2 witness. -/
def cfgWarm : Config :=
  { wait_all := false, wait_timeout := 2000, warmup_frames := 1, min_frames_each := 1,
    min_brightness := none, brightness_retry := 2, brightness_wait := 500,
    min_sharpness := none, sharpness_frames := 3, one_shot := true,
    auto_interval := none }

/-! ## Theorems -/

/-- C10: for every value of `PNG_COMPRESSION` (absent, parseable or not)
`get_png_compression` returns an integer in `[0, 9]`; a parsed value `v`
is clamped (below 0 ↦ 0, inside ↦ `v`, above 9 ↦ 9), and an absent or
unparseable value yields the default 3; the function is total. -/
theorem png_compression_clamped (env : Option String) :
    (0 ≤ get_png_compression env ∧ get_png_compression env ≤ 9) ∧
    (∀ s v, env = some s → pyParseInt s = some v →
      (v < 0 → get_png_compression env = 0) ∧
      (0 ≤ v → v ≤ 9 → get_png_compression env = v) ∧
      (9 < v → get_png_compression env = 9)) ∧
    (∀ s, env = some s → pyParseInt s = none → get_png_compression env = 3) ∧
    (env = none → get_png_compression env = 3) := by
  refine ⟨?_, ?_, ?_, ?_⟩
  · unfold get_png_compression
    cases h : pyParseInt (env.getD "3") with
    | none => exact ⟨by decide, by decide⟩
    | some v =>
      show 0 ≤ max 0 (min 9 v) ∧ max 0 (min 9 v) ≤ 9
      omega
  · intro s v hs hv
    subst hs
    unfold get_png_compression
    simp only [Option.getD_some]
    rw [hv]
    show (v < 0 → max 0 (min 9 v) = 0) ∧ (0 ≤ v → v ≤ 9 → max 0 (min 9 v) = v) ∧
      (9 < v → max 0 (min 9 v) = 9)
    refine ⟨fun h1 => ?_, fun h1 h2 => ?_, fun h1 => ?_⟩ <;> omega
  · intro s hs hv
    subst hs
    unfold get_png_compression
    simp only [Option.getD_some]
    rw [hv]
  · intro h
    subst h
    unfold get_png_compression
    have h3 : pyParseInt ((none : Option String).getD "3") = some 3 := by decide
    rw [h3]
    decide

/-- Witness for C10 at concrete inputs: `" -7 "` parses to `-7` and clamps
to 0, while `"x"` is unparseable and yields 3. -/
theorem png_compression_clamped_witness :
    pyParseInt " -7 " = some (-7) ∧ get_png_compression (some " -7 ") = 0 ∧
    pyParseInt "x" = none ∧ get_png_compression (some "x") = 3 := by
  refine ⟨by decide, ?_, by decide, ?_⟩
  · exact ((png_compression_clamped (some " -7 ")).2.1 " -7 " (-7) rfl (by decide)).1 (by decide)
  · exact (png_compression_clamped (some "x")).2.2.1 "x" rfl (by decide)

/-- The fold of `scanStep` over the samples, started at any accumulator,
agrees with the spec-side first-maximum recursion. -/
theorem scan_foldl_spec (l : List (Int × Rat)) :
    ∀ bv : Rat, ∀ bp : Option Int,
      l.foldl scanStep (bv, bp) =
        match specBestFocus l with
        | none => (bv, bp)
        | some t => if bv < t.2 then (t.2, some t.1) else (bv, bp) := by
  induction l with
  | nil => intro bv bp; rfl
  | cons s rest ih =>
    intro bv bp
    rw [List.foldl_cons]
    by_cases hb : bv < s.2
    · have hstep : scanStep (bv, bp) s = (s.2, some s.1) := by
        unfold scanStep
        rw [if_pos hb]
      rw [hstep, ih s.2 (some s.1)]
      simp only [specBestFocus]
      cases hr : specBestFocus rest with
      | none => simp [specPick, hb]
      | some t =>
        simp only [specPick]
        by_cases ht : s.2 < t.2
        · have hbt : bv < t.2 := lt_trans hb ht
          simp [ht, hbt]
        · simp [ht, hb]
    · have hstep : scanStep (bv, bp) s = (bv, bp) := by
        unfold scanStep
        rw [if_neg hb]
      rw [hstep, ih bv bp]
      simp only [specBestFocus]
      cases hr : specBestFocus rest with
      | none => simp [specPick, hb]
      | some t =>
        simp only [specPick]
        by_cases ht : s.2 < t.2
        · simp [ht]
        · have hbt : ¬ bv < t.2 := fun hc => hb (lt_of_lt_of_le hc (le_of_not_lt ht))
          simp [ht, hb, hbt]

/-- `specBestFocus` returns `none` exactly on the empty sample list. -/
theorem specBestFocus_eq_none (l : List (Int × Rat)) :
    specBestFocus l = none ↔ l = [] := by
  cases l with
  | nil => simp [specBestFocus]
  | cons s rest =>
    simp only [specBestFocus]
    constructor
    · intro h
      exfalso
      cases hr : specBestFocus rest with
      | none =>
        rw [hr] at h
        simp [specPick] at h
      | some t =>
        rw [hr] at h
        simp only [specPick] at h
        by_cases ht : s.2 < t.2 <;> simp [ht] at h
    · intro h
      exact absurd h (by simp)

/-- The chosen sample is one of the recorded samples. -/
theorem specBestFocus_mem (l : List (Int × Rat)) :
    ∀ t, specBestFocus l = some t → t ∈ l := by
  induction l with
  | nil => intro t h; simp [specBestFocus] at h
  | cons s rest ih =>
    intro t h
    simp only [specBestFocus] at h
    cases hr : specBestFocus rest with
    | none =>
      rw [hr] at h
      simp only [specPick] at h
      injection h with h
      subst h
      exact List.mem_cons_self s rest
    | some u =>
      rw [hr] at h
      simp only [specPick] at h
      by_cases hu : s.2 < u.2
      · rw [if_pos hu] at h
        injection h with h
        subst h
        exact List.mem_cons_of_mem _ (ih u hr)
      · rw [if_neg hu] at h
        injection h with h
        subst h
        exact List.mem_cons_self s rest

/-- The chosen sample's score dominates every recorded score. -/
theorem specBestFocus_ge (l : List (Int × Rat)) :
    ∀ t, specBestFocus l = some t → ∀ s ∈ l, s.2 ≤ t.2 := by
  induction l with
  | nil => intro t h; simp [specBestFocus] at h
  | cons s rest ih =>
    intro t h x hx
    simp only [specBestFocus] at h
    cases hr : specBestFocus rest with
    | none =>
      rw [hr] at h
      simp only [specPick] at h
      injection h with h
      subst h
      have hrest : rest = [] := (specBestFocus_eq_none rest).1 hr
      subst hrest
      simp at hx
      subst hx
      exact le_refl _
    | some u =>
      rw [hr] at h
      simp only [specPick] at h
      rcases List.mem_cons.1 hx with hxs | hxr
      · subst hxs
        by_cases hu : x.2 < u.2
        · rw [if_pos hu] at h
          injection h with h
          subst h
          exact le_of_lt hu
        · rw [if_neg hu] at h
          injection h with h
          subst h
          exact le_refl _
      · by_cases hu : s.2 < u.2
        · rw [if_pos hu] at h
          injection h with h
          subst h
          exact ih u hr x hxr
        · rw [if_neg hu] at h
          injection h with h
          subst h
          exact le_trans (ih u hr x hxr) (le_of_not_lt hu)

/-- First-seen tie-breaking: the chosen sample is the first whose score
reaches the maximum. -/
theorem specBestFocus_first (l : List (Int × Rat)) :
    ∀ t, specBestFocus l = some t →
      l.find? (fun s => decide (t.2 ≤ s.2)) = some t := by
  induction l with
  | nil => intro t h; simp [specBestFocus] at h
  | cons s rest ih =>
    intro t h
    simp only [specBestFocus] at h
    cases hr : specBestFocus rest with
    | none =>
      rw [hr] at h
      simp only [specPick] at h
      injection h with h
      subst h
      rw [List.find?_cons_of_pos _ (by simp)]
    | some u =>
      rw [hr] at h
      simp only [specPick] at h
      by_cases hu : s.2 < u.2
      · rw [if_pos hu] at h
        injection h with h
        subst h
        rw [List.find?_cons_of_neg _ ?hna]
        · exact ih u hr
        · simp only [decide_eq_true_eq]
          exact not_le.mpr hu
      · rw [if_neg hu] at h
        injection h with h
        subst h
        rw [List.find?_cons_of_pos _ (by simp)]

/-- C8: the focus scanner selects, among the recorded (position,
sharpness) samples, the position with the maximum sharpness, ties broken
in favor of the first-seen sample; on the synthetic samples
[(50,10),(80,35),(110,22)] it selects 80; with no recorded samples (every
measurement failed) it applies no focus position and reports that via the
`scanned _ none` outcome. -/
theorem focus_selects_first_max (samples : List (Int × Rat))
    (hpos : ∀ s ∈ samples, 0 ≤ s.2) :
    (samples = [] → bestFocus samples = none) ∧
    (samples ≠ [] → ∃ t : Int × Rat, bestFocus samples = some t.1 ∧ t ∈ samples ∧
      (∀ s ∈ samples, s.2 ≤ t.2) ∧
      samples.find? (fun s => decide (t.2 ≤ s.2)) = some t) ∧
    bestFocus [((50 : Int), (10 : Rat)), (80, 35), (110, 22)] = some 80 ∧
    (∀ caps meas positions c cp, caps c = some cp → focusSupported cp = true →
      (∀ p : Int, meas c p = (none : Option Rat)) →
      focusScanCam caps meas positions c = FocusOutcome.scanned positions none) := by
  refine ⟨?_, ?_, by decide, ?_⟩
  · intro h
    subst h
    rfl
  · intro hne
    cases hs : specBestFocus samples with
    | none => exact absurd ((specBestFocus_eq_none samples).1 hs) hne
    | some t =>
      refine ⟨t, ?_, specBestFocus_mem samples t hs, specBestFocus_ge samples t hs,
        specBestFocus_first samples t hs⟩
      unfold bestFocus
      rw [scan_foldl_spec samples (-1) none, hs]
      have h0 : (0 : Rat) ≤ t.2 := hpos t (specBestFocus_mem samples t hs)
      have hlt : (-1 : Rat) < t.2 := lt_of_lt_of_le (by norm_num) h0
      simp [hlt]
  · intro caps meas positions c cp hc hsup hmeas
    unfold focusScanCam
    rw [hc]
    simp only [hsup]
    have hnil : positions.filterMap (fun p => (meas c p).map (fun v => (p, v))) = [] := by
      rw [List.filterMap_eq_nil_iff]
      intro p _
      rw [hmeas p]
      rfl
    rw [hnil]
    rfl

/-- Witness for C8: the synthetic sample list has nonnegative scores and
the scanner selects position 80 on it. -/
theorem focus_selects_first_max_witness :
    (∀ s ∈ [((50 : Int), (10 : Rat)), (80, 35), (110, 22)], 0 ≤ s.2) ∧
    bestFocus [((50 : Int), (10 : Rat)), (80, 35), (110, 22)] = some 80 := by
  refine ⟨by decide, ?_⟩
  exact (focus_selects_first_max [((50 : Int), (10 : Rat)), (80, 35), (110, 22)]
    (by decide)).2.2.1

/-- C9: a camera whose node exposes none of the three manual-focus
methods is detected by the capability probe without error: its scan
outcome is `unsupported`, no actuator command is issued for it, and the
scan over the target list still processes every other camera. -/
theorem unsupported_focus_skipped (caps : String → Option CamCaps)
    (meas : String → Int → Option Rat) (positions : List Int)
    (targets : List String) (c : String) (cp : CamCaps)
    (hc : caps c = some cp)
    (h1 : cp.hasSetManualFocus = false) (h2 : cp.hasSetFocus = false)
    (h3 : cp.hasSetLensPosition = false) :
    focusScanCam caps meas positions c = FocusOutcome.unsupported ∧
    outcomeCommands (focusScanCam caps meas positions c) = [] ∧
    (focusScanAll caps meas positions targets).length = targets.length ∧
    (∀ d ∈ targets, (d, focusScanCam caps meas positions d) ∈
      focusScanAll caps meas positions targets) := by
  have hsup : focusSupported cp = false := by
    unfold focusSupported
    rw [h1, h2, h3]
    rfl
  have hout : focusScanCam caps meas positions c = FocusOutcome.unsupported := by
    simp only [focusScanCam, hc, hsup]
    rw [if_pos trivial]
  refine ⟨hout, by rw [hout]; rfl, by simp [focusScanAll], ?_⟩
  intro d hd
  unfold focusScanAll
  exact List.mem_map_of_mem _ hd

/-- Witness for C9 at the concrete table: camera A is skipped with no
actuator commands while camera B is still scanned. -/
theorem unsupported_focus_skipped_witness :
    capsW "A" = some { hasSetManualFocus := false, hasSetFocus := false,
                       hasSetLensPosition := false } ∧
    focusScanCam capsW measW [50, 80] "A" = FocusOutcome.unsupported ∧
    outcomeCommands (focusScanCam capsW measW [50, 80] "A") = [] ∧
    (focusScanAll capsW measW [50, 80] ["A", "B"]).length = 2 ∧
    ("B", focusScanCam capsW measW [50, 80] "B") ∈ focusScanAll capsW measW [50, 80] ["A", "B"] := by
  have h := unsupported_focus_skipped capsW measW [50, 80] ["A", "B"] "A"
    { hasSetManualFocus := false, hasSetFocus := false, hasSetLensPosition := false }
    (by decide) rfl rfl rfl
  exact ⟨by decide, h.1, h.2.1, h.2.2.1, h.2.2.2 "B" (by decide)⟩

/-- Counterexample to C1: in the scenario run, no batch is ever emitted —
in particular no single-camera batch appears when camera A's third frame
arrives — because the `min_frames_each` readiness check counts camera B
(still inside warm-up) as lacking. -/
theorem single_camera_batch_refuted :
    (runLoop cfgC1 schedC1 ["A", "B"] 1 8 initSt).batches = [] ∧
    (runLoop cfgC1 schedC1 ["A", "B"] 1 8 initSt).st.captureCount = 0 := by
  decide

/-- Amended C1: when camera A's third frame arrives the one-shot trigger
fires, but the capture is postponed with camera B reported as lacking;
camera A has exactly one warm frame and camera B none, B's two frames
having been consumed by warm-up. -/
theorem capture_postponed_in_scenario :
    Event.postponed ["B"] ∈ (runLoop cfgC1 schedC1 ["A", "B"] 1 8 initSt).events ∧
    (runLoop cfgC1 schedC1 ["A", "B"] 1 8 initSt).st.perCam "A" = 1 ∧
    (runLoop cfgC1 schedC1 ["A", "B"] 1 8 initSt).st.perCam "B" = 0 ∧
    (runLoop cfgC1 schedC1 ["A", "B"] 1 8 initSt).st.warmup "B" = 2 := by
  decide

/-- The brightness gate performs at most `gas` retry passes when entered
with `gas + 1` iterations left (so at most `brightness_retry` from the
initial call). -/
theorem brightLoop_retries (sched : Sched) (cams : List String) (mb : Rat)
    (bretry bwait : Nat) :
    ∀ gas captured consumed now,
      (brightLoop sched cams mb bretry bwait (gas+1) captured consumed now).retries ≤ gas := by
  intro gas
  induction gas with
  | zero =>
    intro captured consumed now
    simp only [brightLoop]
    by_cases h1 : tooDarkList mb captured = []
    · rw [if_pos h1]
    · rw [if_neg h1, if_pos trivial]
  | succ g ih =>
    intro captured consumed now
    simp only [brightLoop]
    by_cases h1 : tooDarkList mb captured = []
    · rw [if_pos h1]
      exact Nat.zero_le _
    · rw [if_neg h1, if_neg (Nat.succ_ne_zero g)]
      exact Nat.succ_le_succ (ih _ _ _)

/-- Each brightness retry waits exactly `bwait` ms before its re-poll:
the clock advances by `bwait` times the number of retries performed. -/
theorem brightLoop_now (sched : Sched) (cams : List String) (mb : Rat)
    (bretry bwait : Nat) :
    ∀ gas captured consumed now,
      (brightLoop sched cams mb bretry bwait gas captured consumed now).now =
        now + bwait * (brightLoop sched cams mb bretry bwait gas captured consumed now).retries := by
  intro gas
  induction gas with
  | zero => intro captured consumed now; simp [brightLoop]
  | succ g ih =>
    intro captured consumed now
    simp only [brightLoop]
    by_cases h1 : tooDarkList mb captured = []
    · rw [if_pos h1]
      simp
    · rw [if_neg h1]
      by_cases h2 : g = 0
      · rw [if_pos h2]
        simp
      · rw [if_neg h2]
        show (brightLoop sched cams mb bretry bwait g _ _ (now + bwait)).now =
          now + bwait * ((brightLoop sched cams mb bretry bwait g _ _ (now + bwait)).retries + 1)
        rw [ih]
        ring

/-- If frames are still dark when the brightness gate exits, the
`stillDark` report carrying the final measured values was emitted. -/
theorem brightLoop_stillDark (sched : Sched) (cams : List String) (mb : Rat)
    (bretry bwait : Nat) :
    ∀ gas captured consumed now,
      tooDarkList mb (brightLoop sched cams mb bretry bwait (gas+1) captured consumed now).captured ≠ [] →
      Event.stillDark bretry
          (tooDarkList mb (brightLoop sched cams mb bretry bwait (gas+1) captured consumed now).captured)
        ∈ (brightLoop sched cams mb bretry bwait (gas+1) captured consumed now).events := by
  intro gas
  induction gas with
  | zero =>
    intro captured consumed now hd
    simp only [brightLoop] at hd ⊢
    by_cases h1 : tooDarkList mb captured = []
    · rw [if_pos h1] at hd ⊢
      exact absurd h1 hd
    · rw [if_neg h1, if_pos trivial] at hd ⊢
      exact List.mem_singleton.mpr rfl
  | succ g ih =>
    intro captured consumed now hd
    simp only [brightLoop] at hd ⊢
    by_cases h1 : tooDarkList mb captured = []
    · rw [if_pos h1] at hd ⊢
      exact absurd h1 hd
    · rw [if_neg h1, if_neg (Nat.succ_ne_zero g)] at hd ⊢
      exact List.mem_cons_of_mem _ (ih _ _ _ hd)

/-- Once the readiness check passes, the capture block always emits a
batch — quality outcomes can only delay it, never reject it. -/
theorem captureStage_emits (cfg : Config) (sched : Sched) (cams : List String)
    (frames : List (String × Held)) (st : St)
    (h : cams.filter (fun c => st.perCam c < cfg.min_frames_each) = []) :
    (captureStage cfg sched cams frames st).batch.isSome = true := by
  unfold captureStage
  rw [if_pos h]
  rfl

/-- C4: with `min_brightness` configured the controller performs at most
`brightness_retry` retry passes, each advancing the clock by exactly
`brightness_wait` ms before its re-poll; if frames are still dark at exit
the condition is reported with the measured (socket, luminance) values;
and a dark frame never causes rejection: once the readiness check passes,
the capture block emits a batch whatever the brightness outcome. -/
theorem brightness_retry_bounded :
    (∀ (sched : Sched) (cams : List String) (mb : Rat) (bretry bwait : Nat)
        captured consumed now,
      (brightLoop sched cams mb bretry bwait (bretry+1) captured consumed now).retries ≤ bretry ∧
      (brightLoop sched cams mb bretry bwait (bretry+1) captured consumed now).now =
        now + bwait * (brightLoop sched cams mb bretry bwait (bretry+1) captured consumed now).retries ∧
      (tooDarkList mb (brightLoop sched cams mb bretry bwait (bretry+1) captured consumed now).captured ≠ [] →
        Event.stillDark bretry
            (tooDarkList mb (brightLoop sched cams mb bretry bwait (bretry+1) captured consumed now).captured)
          ∈ (brightLoop sched cams mb bretry bwait (bretry+1) captured consumed now).events)) ∧
    (∀ (cfg : Config) (sched : Sched) (cams : List String) frames st,
      cams.filter (fun c => st.perCam c < cfg.min_frames_each) = [] →
      (captureStage cfg sched cams frames st).batch.isSome = true) := by
  constructor
  · intro sched cams mb bretry bwait captured consumed now
    exact ⟨brightLoop_retries sched cams mb bretry bwait bretry captured consumed now,
      brightLoop_now sched cams mb bretry bwait (bretry+1) captured consumed now,
      brightLoop_stillDark sched cams mb bretry bwait bretry captured consumed now⟩
  · intro cfg sched cams frames st h
    exact captureStage_emits cfg sched cams frames st h

/-- Witness for C4: a camera that stays dark through every re-poll hits
the retry bound, gets the `stillDark` report, and the capture block still
emits a batch. -/
theorem brightness_retry_bounded_witness :
    (brightLoop schedDark ["A"] 50 2 500 3 [("A", { idx := 0, frame := fDark })]
        (fun _ => 1) 0).retries ≤ 2 ∧
    tooDarkList 50 (brightLoop schedDark ["A"] 50 2 500 3 [("A", { idx := 0, frame := fDark })]
        (fun _ => 1) 0).captured ≠ [] ∧
    Event.stillDark 2 (tooDarkList 50 (brightLoop schedDark ["A"] 50 2 500 3
          [("A", { idx := 0, frame := fDark })] (fun _ => 1) 0).captured)
      ∈ (brightLoop schedDark ["A"] 50 2 500 3 [("A", { idx := 0, frame := fDark })]
          (fun _ => 1) 0).events ∧
    (captureStage cfgGate schedDark ["A"] [("A", { idx := 0, frame := fDark })]
        stGate).batch.isSome = true := by
  refine ⟨?_, by decide, ?_, ?_⟩
  · exact (brightness_retry_bounded.1 schedDark ["A"] 50 2 500
      [("A", { idx := 0, frame := fDark })] (fun _ => 1) 0).1
  · exact (brightness_retry_bounded.1 schedDark ["A"] 50 2 500
      [("A", { idx := 0, frame := fDark })] (fun _ => 1) 0).2.2 (by decide)
  · exact brightness_retry_bounded.2 cfgGate schedDark ["A"]
      [("A", { idx := 0, frame := fDark })] stGate (by decide)

/-- The sharpness gate performs at most `gas` retry passes. -/
theorem sharpLoop_retries (sched : Sched) (cams : List String) (ms : Rat)
    (sframes : Nat) :
    ∀ gas captured consumed now,
      (sharpLoop sched cams ms sframes gas captured consumed now).retries ≤ gas := by
  intro gas
  induction gas with
  | zero => intro captured consumed now; exact Nat.le_refl 0
  | succ g ih =>
    intro captured consumed now
    simp only [sharpLoop]
    by_cases h1 : sharpVals sframes captured = []
    · rw [if_pos h1]
      exact Nat.zero_le _
    · rw [if_neg h1]
      by_cases h2 : (sharpVals sframes captured).sum / ((sharpVals sframes captured).length : Rat) < ms
      · rw [if_pos h2]
        exact Nat.succ_le_succ (ih _ _ _)
      · rw [if_neg h2]
        exact Nat.zero_le _

/-- Each sharpness retry waits exactly 300 ms before its re-poll. -/
theorem sharpLoop_now (sched : Sched) (cams : List String) (ms : Rat)
    (sframes : Nat) :
    ∀ gas captured consumed now,
      (sharpLoop sched cams ms sframes gas captured consumed now).now =
        now + 300 * (sharpLoop sched cams ms sframes gas captured consumed now).retries := by
  intro gas
  induction gas with
  | zero => intro captured consumed now; simp [sharpLoop]
  | succ g ih =>
    intro captured consumed now
    simp only [sharpLoop]
    by_cases h1 : sharpVals sframes captured = []
    · rw [if_pos h1]
      simp
    · rw [if_neg h1]
      by_cases h2 : (sharpVals sframes captured).sum / ((sharpVals sframes captured).length : Rat) < ms
      · rw [if_pos h2]
        show (sharpLoop sched cams ms sframes g _ _ (now + 300)).now =
          now + 300 * ((sharpLoop sched cams ms sframes g _ _ (now + 300)).retries + 1)
        rw [ih]
        ring
      · rw [if_neg h2]
        simp

/-- If the sharpness gate exhausts its retry bound, a low-average warning
(with the measured average and the threshold) was emitted. -/
theorem sharpLoop_exhaust (sched : Sched) (cams : List String) (ms : Rat)
    (sframes : Nat) :
    ∀ gas captured consumed now,
      (sharpLoop sched cams ms sframes (gas+1) captured consumed now).retries = gas + 1 →
      ∃ avg, Event.sharpRetry avg ms
          ∈ (sharpLoop sched cams ms sframes (gas+1) captured consumed now).events ∧
        avg < ms := by
  intro gas captured consumed now h
  simp only [sharpLoop] at h ⊢
  by_cases h1 : sharpVals sframes captured = []
  · rw [if_pos h1] at h
    exact absurd h.symm (Nat.succ_ne_zero gas)
  · rw [if_neg h1] at h ⊢
    by_cases h2 : (sharpVals sframes captured).sum / ((sharpVals sframes captured).length : Rat) < ms
    · rw [if_pos h2] at h ⊢
      exact ⟨(sharpVals sframes captured).sum / ((sharpVals sframes captured).length : Rat),
        List.mem_cons_self _ _, h2⟩
    · rw [if_neg h2] at h
      exact absurd h.symm (Nat.succ_ne_zero gas)

/-- C5: with `min_sharpness` configured the controller performs at most 3
retries, each advancing the clock by exactly 300 ms before refreshing the
frames; when the bound is exhausted a warning carrying a below-threshold
average was emitted; and a blurry batch is never rejected: once the
readiness check passes, the capture block emits a batch whatever the
sharpness outcome. -/
theorem sharpness_retry_bounded :
    (∀ (sched : Sched) (cams : List String) (ms : Rat) (sframes : Nat)
        captured consumed now,
      (sharpLoop sched cams ms sframes 3 captured consumed now).retries ≤ 3 ∧
      (sharpLoop sched cams ms sframes 3 captured consumed now).now =
        now + 300 * (sharpLoop sched cams ms sframes 3 captured consumed now).retries ∧
      ((sharpLoop sched cams ms sframes 3 captured consumed now).retries = 3 →
        ∃ avg, Event.sharpRetry avg ms
            ∈ (sharpLoop sched cams ms sframes 3 captured consumed now).events ∧
          avg < ms)) ∧
    (∀ (cfg : Config) (sched : Sched) (cams : List String) frames st,
      cfg.min_sharpness ≠ none →
      cams.filter (fun c => st.perCam c < cfg.min_frames_each) = [] →
      (captureStage cfg sched cams frames st).batch.isSome = true) := by
  constructor
  · intro sched cams ms sframes captured consumed now
    exact ⟨sharpLoop_retries sched cams ms sframes 3 captured consumed now,
      sharpLoop_now sched cams ms sframes 3 captured consumed now,
      sharpLoop_exhaust sched cams ms sframes 2 captured consumed now⟩
  · intro cfg sched cams frames st _ h
    exact captureStage_emits cfg sched cams frames st h

/-- Witness for C5: a camera that stays blurry hits the 3-retry bound at
exactly 900 ms of waiting, a below-threshold warning was emitted, and the
capture block still emits a batch. -/
theorem sharpness_retry_bounded_witness :
    (sharpLoop schedBlur ["A"] 50 3 3 [("A", { idx := 0, frame := fBlur })]
        (fun _ => 1) 0).retries = 3 ∧
    (sharpLoop schedBlur ["A"] 50 3 3 [("A", { idx := 0, frame := fBlur })]
        (fun _ => 1) 0).now = 900 ∧
    (∃ avg, Event.sharpRetry avg 50
        ∈ (sharpLoop schedBlur ["A"] 50 3 3 [("A", { idx := 0, frame := fBlur })]
            (fun _ => 1) 0).events ∧
      avg < 50) ∧
    (captureStage cfgSharp schedBlur ["A"] [("A", { idx := 0, frame := fBlur })]
        stGate).batch.isSome = true := by
  refine ⟨by with_unfolding_all decide, by with_unfolding_all decide, ?_, ?_⟩
  · exact (sharpness_retry_bounded.1 schedBlur ["A"] 50 3
      [("A", { idx := 0, frame := fBlur })] (fun _ => 1) 0).2.2
      (by with_unfolding_all decide)
  · exact sharpness_retry_bounded.2 cfgSharp schedBlur ["A"]
      [("A", { idx := 0, frame := fBlur })] stGate (by decide) (by decide)

/-- C7: the capture block emits a batch only when every known camera's
`per_cam_frames` count has reached `min_frames_each` (the counters are
untouched between the check and the emission); and if any camera is below
the minimum, the capture is postponed: no batch, state unchanged, control
returns to collecting, only the postponement report is printed. -/
theorem min_frames_gate (cfg : Config) (sched : Sched) (cams : List String)
    (frames : List (String × Held)) (st : St) :
    (∀ b, (captureStage cfg sched cams frames st).batch = some b →
      ∀ c ∈ cams, cfg.min_frames_each ≤ st.perCam c) ∧
    (∀ c ∈ cams, st.perCam c < cfg.min_frames_each →
      (captureStage cfg sched cams frames st).batch = none ∧
      (captureStage cfg sched cams frames st).st = st ∧
      (captureStage cfg sched cams frames st).exitLoop = false ∧
      (captureStage cfg sched cams frames st).events =
        [Event.postponed (cams.filter (fun c => st.perCam c < cfg.min_frames_each))]) := by
  constructor
  · intro b hb c hc
    by_cases hl : cams.filter (fun c => st.perCam c < cfg.min_frames_each) = []
    · have hall := List.filter_eq_nil_iff.1 hl c hc
      simp only [decide_eq_true_eq] at hall
      exact Nat.le_of_not_lt hall
    · exfalso
      unfold captureStage at hb
      rw [if_neg hl] at hb
      exact Option.noConfusion hb
  · intro c hc hlt
    have hmem : c ∈ cams.filter (fun c => st.perCam c < cfg.min_frames_each) :=
      List.mem_filter.2 ⟨hc, by simp [hlt]⟩
    have hl : cams.filter (fun c => st.perCam c < cfg.min_frames_each) ≠ [] :=
      List.ne_nil_of_mem hmem
    unfold captureStage
    rw [if_neg hl]
    exact ⟨rfl, rfl, rfl, rfl⟩

/-- Witness for C7: with both counters at the minimum the batch is the
held frames and the counters are at the minimum; with camera B at 0 the
capture is postponed with no batch. -/
theorem min_frames_gate_witness :
    (captureStage cfgMin schedC1 ["A", "B"] [("A", { idx := 2, frame := f100 })]
        stGate).batch = some [("A", { idx := 2, frame := f100 })] ∧
    cfgMin.min_frames_each ≤ stGate.perCam "A" ∧
    "B" ∈ ["A", "B"] ∧
    stLack.perCam "B" < cfgMin.min_frames_each ∧
    (captureStage cfgMin schedC1 ["A", "B"] [("A", { idx := 2, frame := f100 })]
        stLack).batch = none ∧
    (captureStage cfgMin schedC1 ["A", "B"] [("A", { idx := 2, frame := f100 })]
        stLack).events = [Event.postponed ["B"]] := by
  have h1 := (min_frames_gate cfgMin schedC1 ["A", "B"]
    [("A", { idx := 2, frame := f100 })] stGate).1
    [("A", { idx := 2, frame := f100 })] (by decide) "A" (by decide)
  have h2 := (min_frames_gate cfgMin schedC1 ["A", "B"]
    [("A", { idx := 2, frame := f100 })] stLack).2 "B" (by decide) (by decide)
  refine ⟨by decide, h1, by decide, by decide, h2.1, ?_⟩
  rw [h2.2.2.2]
  decide

/-- Counterexample to C3: camera A's held frame passes the brightness
check (100 ≥ 50), yet after one retry pass of the gate A's held frame has
been replaced by the fresh frame from its queue — the retry re-polls
every queue, not only the failing camera's. -/
theorem failing_only_repoll_refuted :
    ¬ fBrightA.brightness < 50 ∧
    alook capturedC3 "A" = some { idx := 0, frame := fBrightA } ∧
    alook (brightLoop schedC3 ["A", "B"] 50 2 500 3 capturedC3
        (fun _ => 1) 0).captured "A" = some { idx := 1, frame := fBrightA2 } := by
  decide

/-- Prepending an unrelated list keeps a successful lookup. -/
theorem alook_append_left (l l' : List (String × Held)) (k : String) (h : Held)
    (hk : alook l k = some h) : alook (l ++ l') k = some h := by
  induction l with
  | nil => exact absurd hk (by simp [alook])
  | cons p r ih =>
    simp only [alook] at hk ⊢
    by_cases hp : p.1 = k
    · rw [if_pos hp] at hk ⊢
      exact hk
    · rw [if_neg hp] at hk ⊢
      exact ih hk

/-- `dictSet` stores the assigned value at its key. -/
theorem alook_dictSet_self (l : List (String × Held)) (c : String) (h : Held) :
    alook (dictSet l c h) c = some h := by
  induction l with
  | nil => simp [dictSet, alook]
  | cons p r ih =>
    simp only [dictSet]
    by_cases hp : p.1 = c
    · rw [if_pos hp]
      simp [alook]
    · rw [if_neg hp]
      simp only [alook]
      rw [if_neg hp]
      exact ih

/-- `dictSet` leaves every other key's binding unchanged. -/
theorem alook_dictSet_other (l : List (String × Held)) (c k : String) (h : Held)
    (hk : k ≠ c) : alook (dictSet l c h) k = alook l k := by
  induction l with
  | nil =>
    simp only [dictSet, alook]
    rw [if_neg (fun he => hk he.symm)]
  | cons p r ih =>
    simp only [dictSet]
    by_cases hp : p.1 = c
    · rw [if_pos hp]
      simp only [alook]
      rw [if_neg (fun he : c = k => hk he.symm),
        if_neg (fun he : p.1 = k => hk (he.symm.trans hp))]
    · rw [if_neg hp]
      simp only [alook]
      by_cases hpk : p.1 = k
      · rw [if_pos hpk, if_pos hpk]
      · rw [if_neg hpk, if_neg hpk]
        exact ih

/-- Updating one camera's counter leaves the others unchanged. -/
theorem upd_other (f : String → Nat) (c k : String) (v : Nat) (hk : k ≠ c) :
    upd f c v k = f k := by
  unfold upd
  rw [if_neg hk]

/-- A camera outside the polled list is untouched by the re-poll. -/
theorem repollAll_not_mem (sched : Sched) (now : Nat) :
    ∀ (cams : List String) captured consumed (c : String), c ∉ cams →
      alook (repollAll sched now cams captured consumed).1 c = alook captured c ∧
      (repollAll sched now cams captured consumed).2 c = consumed c := by
  intro cams
  induction cams with
  | nil => intro captured consumed c _; exact ⟨rfl, rfl⟩
  | cons d rest ih =>
    intro captured consumed c hc
    have hdc : c ≠ d := fun h => hc (h ▸ List.mem_cons_self d rest)
    have hcrest : c ∉ rest := fun h => hc (List.mem_cons_of_mem _ h)
    have hstep : repollAll sched now (d :: rest) captured consumed =
        repollAll sched now rest (repollStep sched now (captured, consumed) d).1
          (repollStep sched now (captured, consumed) d).2 := rfl
    rw [hstep]
    rcases ih (repollStep sched now (captured, consumed) d).1
      (repollStep sched now (captured, consumed) d).2 c hcrest with ⟨h1, h2⟩
    rw [h1, h2]
    simp only [repollStep]
    by_cases hq : queueHas sched d (consumed d) now = true
    · rw [if_pos hq]
      exact ⟨alook_dictSet_other _ _ _ _ hdc, upd_other _ _ _ _ hdc⟩
    · rw [if_neg hq]
      exact ⟨rfl, rfl⟩

/-- What one retry re-poll does to each polled camera: if its queue has a
frame the held entry is replaced by the fresh pop (whether or not the
camera passed the check), otherwise it is left unchanged. -/
theorem repollAll_lookup (sched : Sched) (now : Nat) :
    ∀ (cams : List String), cams.Nodup →
      ∀ captured consumed, ∀ c ∈ cams,
        alook (repollAll sched now cams captured consumed).1 c =
          (if queueHas sched c (consumed c) now = true
            then some { idx := consumed c, frame := popFrame sched c (consumed c) }
            else alook captured c) := by
  intro cams
  induction cams with
  | nil => intro _ captured consumed c hc; exact absurd hc (by simp)
  | cons d rest ih =>
    intro hnd captured consumed c hc
    have hdrest : d ∉ rest := (List.nodup_cons.1 hnd).1
    have hrest : rest.Nodup := (List.nodup_cons.1 hnd).2
    have hstep : repollAll sched now (d :: rest) captured consumed =
        repollAll sched now rest (repollStep sched now (captured, consumed) d).1
          (repollStep sched now (captured, consumed) d).2 := rfl
    rw [hstep]
    rcases List.mem_cons.1 hc with hcd | hcr
    · subst hcd
      rcases repollAll_not_mem sched now rest
        (repollStep sched now (captured, consumed) c).1
        (repollStep sched now (captured, consumed) c).2 c hdrest with ⟨h1, h2⟩
      rw [h1]
      simp only [repollStep]
      by_cases hq : queueHas sched c (consumed c) now = true
      · rw [if_pos hq, if_pos hq]
        exact alook_dictSet_self _ _ _
      · rw [if_neg hq, if_neg hq]
    · have hdc : c ≠ d := fun h => hdrest (h ▸ hcr)
      have hpres1 : alook (repollStep sched now (captured, consumed) d).1 c =
          alook captured c := by
        simp only [repollStep]
        by_cases hq : queueHas sched d (consumed d) now = true
        · rw [if_pos hq]
          exact alook_dictSet_other _ _ _ _ hdc
        · rw [if_neg hq]
      have hpres2 : (repollStep sched now (captured, consumed) d).2 c = consumed c := by
        simp only [repollStep]
        by_cases hq : queueHas sched d (consumed d) now = true
        · rw [if_pos hq]
          exact upd_other _ _ _ _ hdc
        · rw [if_neg hq]
      rw [ih hrest _ _ c hcr, hpres2, hpres1]

/-- Generic preservation of a predicate along a left fold. -/
theorem foldl_pres {α β : Type} {P : β → Prop} (f : β → α → β) :
    ∀ (l : List α), (∀ acc a, a ∈ l → P acc → P (f acc a)) →
      ∀ acc, P acc → P (l.foldl f acc) := by
  intro l
  induction l with
  | nil => intro _ acc h; exact h
  | cons x xs ih =>
    intro hstep acc hP
    rw [List.foldl_cons]
    exact ih (fun acc a ha => hstep acc a (List.mem_cons_of_mem _ ha)) _
      (hstep acc x (List.mem_cons_self _ _) hP)

/-- A socket's stored frame survives one camera's poll: the collecting
pass never overwrites an existing entry. -/
theorem pollOne_alook (cfg : Config) (sched : Sched) (c : String) (acc : PassOut)
    (k : String) (h : Held) (hk : alook acc.frames k = some h) :
    alook (pollOne cfg sched c acc).frames k = some h := by
  simp only [pollOne]
  split_ifs with h1 h2
  · exact hk
  · exact alook_append_left _ _ _ _ hk
  · exact hk

/-- A socket's stored frame survives a whole poll pass. -/
theorem pollPass_alook (cfg : Config) (sched : Sched) (cams : List String)
    (frames : List (String × Held)) (st : St) (k : String) (h : Held)
    (hk : alook frames k = some h) :
    alook (pollPass cfg sched cams frames st).frames k = some h := by
  unfold pollPass
  exact foldl_pres (fun acc c => pollOne cfg sched c acc) cams
    (fun acc a _ hP => pollOne_alook cfg sched a acc k h hP) ⟨frames, st, false⟩ hk

/-- A socket's stored frame survives the whole collecting loop: within a
cycle, the Collecting state never replaces an entry of the frames dict. -/
theorem collect_alook_opt (cfg : Config) (sched : Sched) (cams : List String)
    (start : Nat) :
    ∀ (fuel : Nat) frames st o, collect cfg sched cams start fuel frames st = some o →
      ∀ (k : String) (h : Held), alook frames k = some h → alook o.frames k = some h := by
  intro fuel
  induction fuel with
  | zero =>
    intro frames st o ho
    exact absurd ho (by simp [collect])
  | succ n ih =>
    intro frames st o ho k h hk
    have hp := pollPass_alook cfg sched cams frames st k h hk
    simp only [collect] at ho
    split_ifs at ho with h1 h2 h3
    · cases ho
      exact hp
    · cases ho
      exact hp
    · cases ho
      exact hp
    · exact ih _ _ o ho k h hp
    · exact ih _ _ o ho k h hp

/-- `collect_alook_opt` phrased on the total projection. -/
theorem collect_alook (cfg : Config) (sched : Sched) (cams : List String)
    (start : Nat) :
    ∀ (fuel : Nat) frames st (k : String) (h : Held), alook frames k = some h →
      alook (collectFramesD cfg sched cams start fuel frames st) k = some h := by
  intro fuel frames st k h hk
  unfold collectFramesD
  cases hco : collect cfg sched cams start fuel frames st with
  | none => exact hk
  | some o => exact collect_alook_opt cfg sched cams start fuel frames st o hco k h hk

/-- Amended C3: within one cycle a stored frame is replaced only by a
quality-gate retry re-poll — the collecting phase never overwrites an
entry — but each retry re-polls EVERY camera's queue, not only the
failing cameras': any camera with a frame available, passing or not, has
its held frame replaced by the fresh pop; a camera with an empty queue
keeps its frame. -/
theorem retry_repoll_refreshes_all (cfg : Config) (sched : Sched)
    (cams : List String) (start : Nat) :
    (∀ (fuel : Nat) frames st (k : String) (h : Held), alook frames k = some h →
      alook (collectFramesD cfg sched cams start fuel frames st) k = some h) ∧
    (∀ (now : Nat) captured consumed, cams.Nodup → ∀ c ∈ cams,
      alook (repollAll sched now cams captured consumed).1 c =
        (if queueHas sched c (consumed c) now = true
          then some { idx := consumed c, frame := popFrame sched c (consumed c) }
          else alook captured c)) := by
  constructor
  · exact collect_alook cfg sched cams start
  · intro now captured consumed hnd c hc
    exact repollAll_lookup sched now cams hnd captured consumed c hc

/-- Witness for the amended C3 on the concrete scenario: camera A's entry
survives a collecting pass, and during a retry re-poll the passing camera
A is refreshed from its queue exactly per the availability rule. -/
theorem retry_repoll_refreshes_all_witness :
    alook capturedC3 "A" = some { idx := 0, frame := fBrightA } ∧
    alook (collectFramesD cfgGate schedC3 ["A", "B"] 0 1 capturedC3 stGate) "A" =
      some { idx := 0, frame := fBrightA } ∧
    (["A", "B"] : List String).Nodup ∧
    alook (repollAll schedC3 500 ["A", "B"] capturedC3 (fun _ => 1)).1 "A" =
      (if queueHas schedC3 "A" 1 500 = true
        then some { idx := 1, frame := popFrame schedC3 "A" 1 }
        else alook capturedC3 "A") ∧
    alook (repollAll schedC3 500 ["A", "B"] capturedC3 (fun _ => 1)).1 "A" =
      some { idx := 1, frame := fBrightA2 } := by
  refine ⟨by decide, ?_, by decide, ?_, by decide⟩
  · exact (retry_repoll_refreshes_all cfgGate schedC3 ["A", "B"] 0).1 1 capturedC3 stGate
      "A" { idx := 0, frame := fBrightA } (by decide)
  · exact (retry_repoll_refreshes_all cfgGate schedC3 ["A", "B"] 0).2 500 capturedC3
      (fun _ => 1) (by decide) "A" (by decide)

/-- A failed lookup means the socket holds no frame. -/
theorem alook_none_not_mem (l : List (String × Held)) (c : String)
    (h : alook l c = none) : c ∉ keysOf l := by
  induction l with
  | nil => simp [keysOf]
  | cons p r ih =>
    simp only [alook] at h
    by_cases hp : p.1 = c
    · rw [if_pos hp] at h
      exact absurd h (by simp)
    · rw [if_neg hp] at h
      simp only [keysOf, List.map_cons, List.mem_cons]
      intro hmem
      rcases hmem with h1 | h2
      · exact hp h1.symm
      · exact (ih h) h2

/-- A lookup succeeds exactly for the sockets holding a frame. -/
theorem alook_isSome_mem (l : List (String × Held)) (c : String) :
    (alook l c).isSome = true ↔ c ∈ keysOf l := by
  induction l with
  | nil => simp [alook, keysOf]
  | cons p r ih =>
    simp only [alook, keysOf, List.map_cons, List.mem_cons]
    by_cases hp : p.1 = c
    · rw [if_pos hp]
      simp [hp]
    · rw [if_neg hp]
      rw [ih]
      constructor
      · intro h
        exact Or.inr (by simpa [keysOf] using h)
      · intro h
        rcases h with h1 | h2
        · exact absurd h1.symm hp
        · simpa [keysOf] using h2

/-- One camera's poll either leaves the pass accumulator's frames and
acquired flag unchanged, or appends a frame for a not-yet-stored socket
and raises the flag. -/
theorem pollOne_frames_cases (cfg : Config) (sched : Sched) (c : String)
    (acc : PassOut) :
    ((pollOne cfg sched c acc).frames = acc.frames ∧
     (pollOne cfg sched c acc).acquired = acc.acquired) ∨
    (alook acc.frames c = none ∧
     (∃ h, (pollOne cfg sched c acc).frames = acc.frames ++ [(c, h)]) ∧
     (pollOne cfg sched c acc).acquired = true) := by
  simp only [pollOne]
  split_ifs with h1 h2
  · left
    exact ⟨rfl, rfl⟩
  · right
    exact ⟨h1.1, ⟨_, rfl⟩, rfl⟩
  · left
    exact ⟨rfl, rfl⟩

/-- Polling never advances the wall clock. -/
theorem pollOne_now (cfg : Config) (sched : Sched) (c : String) (acc : PassOut) :
    (pollOne cfg sched c acc).st.now = acc.st.now := by
  simp only [pollOne]
  split_ifs <;> rfl

/-- A whole poll pass never advances the wall clock. -/
theorem pollPass_now (cfg : Config) (sched : Sched) (cams : List String)
    (frames : List (String × Held)) (st : St) :
    (pollPass cfg sched cams frames st).st.now = st.now := by
  unfold pollPass
  exact foldl_pres (fun acc c => pollOne cfg sched c acc) cams
    (fun acc a _ hP => (pollOne_now cfg sched a acc).trans hP) ⟨frames, st, false⟩ rfl

/-- A poll pass keeps the frames dict's keys duplicate-free and within
the camera list. -/
theorem pollPass_keys (cfg : Config) (sched : Sched) (cams : List String)
    (frames : List (String × Held)) (st : St)
    (hnd : (keysOf frames).Nodup) (hsub : ∀ k ∈ keysOf frames, k ∈ cams) :
    (keysOf (pollPass cfg sched cams frames st).frames).Nodup ∧
    ∀ k ∈ keysOf (pollPass cfg sched cams frames st).frames, k ∈ cams := by
  unfold pollPass
  refine @foldl_pres String PassOut
    (fun acc => (keysOf acc.frames).Nodup ∧ ∀ k ∈ keysOf acc.frames, k ∈ cams)
    (fun acc c => pollOne cfg sched c acc) cams ?_ ⟨frames, st, false⟩ ⟨hnd, hsub⟩
  intro acc a ha hP
  rcases pollOne_frames_cases cfg sched a acc with ⟨hf, _⟩ | ⟨hnone, ⟨h, hf⟩, _⟩
  · rw [hf]
    exact hP
  · rw [hf]
    have hnotmem : a ∉ keysOf acc.frames := alook_none_not_mem _ _ hnone
    constructor
    · simp only [keysOf, List.map_append]
      rw [List.nodup_append]
      refine ⟨hP.1, List.nodup_singleton a, ?_⟩
      intro x hx hx2
      simp only [List.map_cons, List.map_nil, List.mem_singleton] at hx2
      subst hx2
      exact hnotmem hx
    · intro k hk
      simp only [keysOf, List.map_append, List.mem_append] at hk
      rcases hk with hk | hk
      · exact hP.2 k hk
      · simp only [List.map_cons, List.map_nil, List.mem_singleton] at hk
        subst hk
        exact ha

/-- A pass that acquired nothing left the frames dict unchanged; a pass
that acquired something strictly grew it. -/
theorem pollPass_growth (cfg : Config) (sched : Sched) (cams : List String)
    (frames : List (String × Held)) (st : St) :
    ((pollPass cfg sched cams frames st).acquired = false →
      (pollPass cfg sched cams frames st).frames = frames) ∧
    ((pollPass cfg sched cams frames st).acquired = true →
      frames.length < (pollPass cfg sched cams frames st).frames.length) := by
  unfold pollPass
  refine @foldl_pres String PassOut
    (fun acc => (acc.acquired = false → acc.frames = frames) ∧
      (acc.acquired = true → frames.length < acc.frames.length))
    (fun acc c => pollOne cfg sched c acc) cams ?_ ⟨frames, st, false⟩
    ⟨fun _ => rfl, fun h => absurd h (by simp)⟩
  intro acc a _ hP
  rcases pollOne_frames_cases cfg sched a acc with ⟨hf, hq⟩ | ⟨_, ⟨h, hf⟩, hq⟩
  · rw [hf, hq]
    exact hP
  · rw [hf, hq]
    constructor
    · intro hfalse
      exact absurd hfalse (by simp)
    · intro _
      rw [List.length_append]
      cases hacc : acc.acquired with
      | true => exact Nat.lt_succ_of_lt (hP.2 hacc)
      | false => rw [hP.1 hacc]; exact Nat.lt_succ_self _

/-- Exit facts of the wait-all collecting loop: the clock never runs more
than one sleep past the timeout, exit happens only on "have all" or
"timed out", an incomplete exit is at or past the timeout, and the
one-shot warning names exactly the captured sockets. -/
theorem collect_exit (cfg : Config) (sched : Sched) (cams : List String)
    (start : Nat) (hw : cfg.wait_all = true) :
    ∀ (fuel : Nat) frames st o, collect cfg sched cams start fuel frames st = some o →
      start ≤ st.now → st.now - start ≤ cfg.wait_timeout + 4 →
      (start ≤ o.st.now ∧
       o.st.now - start ≤ cfg.wait_timeout + 4 ∧
       (o.frames.length = cams.length ∨ cfg.wait_timeout ≤ o.st.now - start) ∧
       (o.frames.length ≠ cams.length ∧ cfg.one_shot = true →
         o.events = [Event.waitAllTimeout (o.frames.map Prod.fst)])) := by
  intro fuel
  induction fuel with
  | zero =>
    intro frames st o ho
    exact absurd ho (by simp [collect])
  | succ n ih =>
    intro frames st o ho hle hbound
    have hnow : (pollPass cfg sched cams frames st).st.now = st.now :=
      pollPass_now cfg sched cams frames st
    simp only [collect] at ho
    rw [if_neg (by rw [hw]; exact fun h => Bool.noConfusion h)] at ho
    split_ifs at ho with h2 h3 hacq
    · cases ho
      refine ⟨by rw [hnow]; exact hle, by rw [hnow]; exact hbound, ?_, ?_⟩
      · rcases h2 with h2 | h2
        · exact Or.inl h2
        · rw [hnow] at h2 ⊢
          exact Or.inr h2
      · intro hmiss
        rfl
    · cases ho
      refine ⟨by rw [hnow]; exact hle, by rw [hnow]; exact hbound, ?_, ?_⟩
      · rcases h2 with h2 | h2
        · exact Or.inl h2
        · rw [hnow] at h2 ⊢
          exact Or.inr h2
      · intro hmiss
        exact absurd hmiss h3
    · have hnt : st.now - start < cfg.wait_timeout := by
        rcases Nat.lt_or_ge ((pollPass cfg sched cams frames st).st.now - start)
          cfg.wait_timeout with h | h
        · rw [hnow] at h
          exact h
        · exact absurd (Or.inr h) h2
      exact ih _ _ o ho (by rw [hnow]; exact hle) (by rw [hnow]; omega)
    · have hnt : st.now - start < cfg.wait_timeout := by
        rcases Nat.lt_or_ge ((pollPass cfg sched cams frames st).st.now - start)
          cfg.wait_timeout with h | h
        · rw [hnow] at h
          exact h
        · exact absurd (Or.inr h) h2
      refine ih _ _ o ho ?_ ?_
      · show start ≤ (pollPass cfg sched cams frames st).st.now + 5
        rw [hnow]
        omega
      · show (pollPass cfg sched cams frames st).st.now + 5 - start ≤ cfg.wait_timeout + 4
        rw [hnow]
        omega

/-- The collecting loop keeps the frames dict's keys duplicate-free and
within the camera list. -/
theorem collect_keys (cfg : Config) (sched : Sched) (cams : List String)
    (start : Nat) :
    ∀ (fuel : Nat) frames st o, collect cfg sched cams start fuel frames st = some o →
      (keysOf frames).Nodup → (∀ k ∈ keysOf frames, k ∈ cams) →
      (keysOf o.frames).Nodup ∧ ∀ k ∈ keysOf o.frames, k ∈ cams := by
  intro fuel
  induction fuel with
  | zero =>
    intro frames st o ho
    exact absurd ho (by simp [collect])
  | succ n ih =>
    intro frames st o ho hnd hsub
    have hp := pollPass_keys cfg sched cams frames st hnd hsub
    simp only [collect] at ho
    split_ifs at ho with h1 h2 h3 h4
    · cases ho
      exact hp
    · cases ho
      exact hp
    · cases ho
      exact hp
    · exact ih _ _ o ho hp.1 hp.2
    · exact ih _ _ o ho hp.1 hp.2

/-- Fuel sufficiency of the wait-all collecting loop: every pass either
exits, stores a frame for a new camera (at most `cams.length` times), or
sleeps 5 ms toward the timeout, so `cams.length + wait_timeout + 6`
passes always reach an exit. -/
theorem collect_total (cfg : Config) (sched : Sched) (cams : List String)
    (start : Nat) :
    ∀ (fuel : Nat) frames st,
      (keysOf frames).Nodup → (∀ k ∈ keysOf frames, k ∈ cams) →
      start ≤ st.now →
      (cams.length - frames.length) + (cfg.wait_timeout + 5 - (st.now - start)) < fuel →
      (collect cfg sched cams start fuel frames st).isSome = true := by
  intro fuel
  induction fuel with
  | zero =>
    intro frames st _ _ _ hm
    exact absurd hm (by omega)
  | succ n ih =>
    intro frames st hnd hsub hle hm
    have hnow : (pollPass cfg sched cams frames st).st.now = st.now :=
      pollPass_now cfg sched cams frames st
    have hkeys := pollPass_keys cfg sched cams frames st hnd hsub
    have hgrow := pollPass_growth cfg sched cams frames st
    have hlen : (pollPass cfg sched cams frames st).frames.length ≤ cams.length := by
      have hsp := List.subperm_of_subset hkeys.1 (fun a ha => hkeys.2 a ha)
      have := hsp.length_le
      simpa [keysOf] using this
    simp only [collect]
    split_ifs with h1 h2 h3 h4
    · rfl
    · rfl
    · rfl
    · -- acquired: frames grew, clock unchanged
      have hlt : frames.length < (pollPass cfg sched cams frames st).frames.length :=
        hgrow.2 h4
      refine ih _ _ hkeys.1 hkeys.2 (by rw [hnow]; exact hle) ?_
      rw [hnow]
      omega
    · -- no acquisition: 5 ms sleep, strictly before the timeout
      have hframes : (pollPass cfg sched cams frames st).frames = frames :=
        hgrow.1 (by
          cases hq : (pollPass cfg sched cams frames st).acquired with
          | false => rfl
          | true => exact absurd hq h4)
      have hnt : st.now - start < cfg.wait_timeout := by
        rcases Nat.lt_or_ge ((pollPass cfg sched cams frames st).st.now - start)
          cfg.wait_timeout with h | h
        · rw [hnow] at h
          exact h
        · exact absurd (Or.inr h) h2
      refine ih _ _ hkeys.1 hkeys.2 ?_ ?_
      · show start ≤ (pollPass cfg sched cams frames st).st.now + 5
        rw [hnow]
        omega
      · show (cams.length - (pollPass cfg sched cams frames st).frames.length) +
          (cfg.wait_timeout + 5 - ((pollPass cfg sched cams frames st).st.now + 5 - start)) < n
        rw [hnow, hframes]
        omega

/-- With duplicate-free keys inside the camera list, "the dict has as
many entries as cameras" says exactly "every camera holds a frame". -/
theorem length_eq_iff_all_present (cams : List String) (hnd : cams.Nodup)
    (fr : List (String × Held)) (hfnd : (keysOf fr).Nodup)
    (hsub : ∀ k ∈ keysOf fr, k ∈ cams) :
    fr.length = cams.length ↔ ∀ c ∈ cams, (alook fr c).isSome = true := by
  have hkl : (keysOf fr).length = fr.length := by simp [keysOf]
  constructor
  · intro hlen c hc
    rw [alook_isSome_mem]
    have hsp := List.subperm_of_subset hfnd (fun a ha => hsub a ha)
    have hperm := hsp.perm_of_length_le (by omega)
    exact hperm.mem_iff.2 hc
  · intro hall
    have hsub2 : cams ⊆ keysOf fr := fun c hc => (alook_isSome_mem fr c).1 (hall c hc)
    have hsp1 := List.subperm_of_subset hfnd (fun a ha => hsub a ha)
    have hsp2 := List.subperm_of_subset hnd hsub2
    have hl1 := hsp1.length_le
    have hl2 := hsp2.length_le
    omega

/-- C6: with `wait_all` enabled, fuel `cams.length + wait_timeout + 6`
guarantees the collecting loop exits; at exit either every camera holds a
frame or at least `wait_timeout` ms have elapsed since cycle start (never
earlier), the exit is never later than `wait_timeout + 4` ms (one 5 ms
sleep past the deadline at most), "all cameras" means a held frame per
known socket, and a one-shot timeout with cameras missing reports exactly
the captured sockets. -/
theorem wait_all_timeout_bound (cfg : Config) (sched : Sched)
    (cams : List String) (fuel : Nat) (st : St)
    (hw : cfg.wait_all = true) (hnd : cams.Nodup) :
    (cams.length + cfg.wait_timeout + 6 ≤ fuel →
      (collect cfg sched cams st.now fuel [] st).isSome = true) ∧
    ((collect cfg sched cams st.now fuel [] st).isSome = true →
      (((collectFramesD cfg sched cams st.now fuel [] st).length ≠ cams.length →
          cfg.wait_timeout ≤ (collectStD cfg sched cams st.now fuel [] st).now - st.now) ∧
       (collectStD cfg sched cams st.now fuel [] st).now - st.now ≤ cfg.wait_timeout + 4 ∧
       ((collectFramesD cfg sched cams st.now fuel [] st).length = cams.length ↔
         ∀ c ∈ cams, (alook (collectFramesD cfg sched cams st.now fuel [] st) c).isSome = true) ∧
       ((collectFramesD cfg sched cams st.now fuel [] st).length ≠ cams.length ∧
          cfg.one_shot = true →
         collectEventsD cfg sched cams st.now fuel [] st =
           [Event.waitAllTimeout
             ((collectFramesD cfg sched cams st.now fuel [] st).map Prod.fst)]))) := by
  constructor
  · intro hf
    refine collect_total cfg sched cams st.now fuel [] st (by simp [keysOf])
      (by simp [keysOf]) (Nat.le_refl _) ?_
    simp only [List.length_nil, Nat.sub_zero, Nat.sub_self]
    omega
  · intro hs
    cases hco : collect cfg sched cams st.now fuel [] st with
    | none =>
      rw [hco] at hs
      exact absurd hs (by simp)
    | some o =>
      have hexit := collect_exit cfg sched cams st.now hw fuel [] st o hco
        (Nat.le_refl _) (by omega)
      have hkeys := collect_keys cfg sched cams st.now fuel [] st o hco
        (by simp [keysOf]) (by simp [keysOf])
      have hfr : collectFramesD cfg sched cams st.now fuel [] st = o.frames := by
        unfold collectFramesD
        rw [hco]
      have hst : collectStD cfg sched cams st.now fuel [] st = o.st := by
        unfold collectStD
        rw [hco]
      have hev : collectEventsD cfg sched cams st.now fuel [] st = o.events := by
        unfold collectEventsD
        rw [hco]
      rw [hfr, hst, hev]
      refine ⟨?_, hexit.2.1, ?_, ?_⟩
      · intro hne
        rcases hexit.2.2.1 with h | h
        · exact absurd h hne
        · exact h
      · exact length_eq_iff_all_present cams hnd o.frames hkeys.1 hkeys.2
      · exact hexit.2.2.2

/-- Witness for C6: with a dead camera B the loop exits by timeout at
exactly 20 ms elapsed, within the `+4` bound, reporting that only camera
A was captured. -/
theorem wait_all_timeout_bound_witness :
    cfgWait.wait_all = true ∧
    (["A", "B"] : List String).Nodup ∧
    (collect cfgWait schedWait ["A", "B"] initSt.now 40 [] initSt).isSome = true ∧
    cfgWait.wait_timeout ≤
      (collectStD cfgWait schedWait ["A", "B"] initSt.now 40 [] initSt).now - initSt.now ∧
    (collectStD cfgWait schedWait ["A", "B"] initSt.now 40 [] initSt).now - initSt.now ≤
      cfgWait.wait_timeout + 4 ∧
    collectEventsD cfgWait schedWait ["A", "B"] initSt.now 40 [] initSt =
      [Event.waitAllTimeout ["A"]] := by
  have h := wait_all_timeout_bound cfgWait schedWait ["A", "B"] 40 initSt rfl (by decide)
  have hs := h.1 (by decide)
  have h2 := h.2 hs
  refine ⟨rfl, by decide, hs, h2.1 (by decide), h2.2.1, ?_⟩
  have hev := h2.2.2.2 ⟨by decide, rfl⟩
  rw [hev]
  decide

/-- One camera's poll preserves the counter invariant and stores only
post-warm-up frames. -/
theorem pollOne_inv (cfg : Config) (sched : Sched) (c : String) (acc : PassOut)
    (h : CtrInv cfg.warmup_frames acc.st ∧ FramesOk cfg.warmup_frames acc.frames) :
    CtrInv cfg.warmup_frames (pollOne cfg sched c acc).st ∧
    FramesOk cfg.warmup_frames (pollOne cfg sched c acc).frames := by
  simp only [pollOne]
  split_ifs with h1 h2
  · refine ⟨?_, h.2⟩
    intro x
    rcases h.1 x with ⟨ha, hb, hc3⟩
    by_cases hx : x = c
    · subst hx
      refine ⟨?_, ?_, ?_⟩
      · show upd acc.st.warmup x (acc.st.warmup x + 1) x ≤
          upd acc.st.consumed x (acc.st.consumed x + 1) x
        unfold upd
        rw [if_pos rfl, if_pos rfl]
        omega
      · show upd acc.st.warmup x (acc.st.warmup x + 1) x ≤ cfg.warmup_frames
        unfold upd
        rw [if_pos rfl]
        omega
      · intro hpc
        show cfg.warmup_frames ≤ upd acc.st.warmup x (acc.st.warmup x + 1) x
        unfold upd
        rw [if_pos rfl]
        exact Nat.le_succ_of_le (hc3 hpc)
    · refine ⟨?_, ?_, ?_⟩
      · show upd acc.st.warmup c (acc.st.warmup c + 1) x ≤
          upd acc.st.consumed c (acc.st.consumed c + 1) x
        rw [upd_other _ _ _ _ hx, upd_other _ _ _ _ hx]
        exact ha
      · show upd acc.st.warmup c (acc.st.warmup c + 1) x ≤ cfg.warmup_frames
        rw [upd_other _ _ _ _ hx]
        exact hb
      · intro hpc
        show cfg.warmup_frames ≤ upd acc.st.warmup c (acc.st.warmup c + 1) x
        rw [upd_other _ _ _ _ hx]
        exact hc3 hpc
  · have hwc : cfg.warmup_frames ≤ acc.st.warmup c := Nat.le_of_not_lt h2
    constructor
    · intro x
      rcases h.1 x with ⟨ha, hb, hc3⟩
      by_cases hx : x = c
      · subst hx
        refine ⟨?_, hb, fun _ => hwc⟩
        show acc.st.warmup x ≤ upd acc.st.consumed x (acc.st.consumed x + 1) x
        unfold upd
        rw [if_pos rfl]
        omega
      · refine ⟨?_, hb, ?_⟩
        · show acc.st.warmup x ≤ upd acc.st.consumed c (acc.st.consumed c + 1) x
          rw [upd_other _ _ _ _ hx]
          exact ha
        · intro hpc
          show cfg.warmup_frames ≤ acc.st.warmup x
          refine hc3 ?_
          have h5 : 1 ≤ upd acc.st.perCam c (acc.st.perCam c + 1) x := hpc
          rw [upd_other _ _ _ _ hx] at h5
          exact h5
    · intro p hp
      rcases List.mem_append.1 hp with hp | hp
      · exact h.2 p hp
      · rw [List.mem_singleton.1 hp]
        show cfg.warmup_frames ≤ acc.st.consumed c
        exact le_trans hwc (h.1 c).1
  · exact h

/-- A whole poll pass preserves the counter invariant and held-frame
bound. -/
theorem pollPass_inv (cfg : Config) (sched : Sched) (cams : List String)
    (frames : List (String × Held)) (st : St)
    (hinv : CtrInv cfg.warmup_frames st) (hf : FramesOk cfg.warmup_frames frames) :
    CtrInv cfg.warmup_frames (pollPass cfg sched cams frames st).st ∧
    FramesOk cfg.warmup_frames (pollPass cfg sched cams frames st).frames := by
  unfold pollPass
  refine @foldl_pres String PassOut
    (fun acc => CtrInv cfg.warmup_frames acc.st ∧ FramesOk cfg.warmup_frames acc.frames)
    (fun acc c => pollOne cfg sched c acc) cams ?_ ⟨frames, st, false⟩ ⟨hinv, hf⟩
  intro acc a _ hP
  exact pollOne_inv cfg sched a acc hP

/-- The collecting loop preserves the counter invariant and held-frame
bound. -/
theorem collect_inv (cfg : Config) (sched : Sched) (cams : List String)
    (start : Nat) :
    ∀ (fuel : Nat) frames st o, collect cfg sched cams start fuel frames st = some o →
      CtrInv cfg.warmup_frames st → FramesOk cfg.warmup_frames frames →
      CtrInv cfg.warmup_frames o.st ∧ FramesOk cfg.warmup_frames o.frames := by
  intro fuel
  induction fuel with
  | zero =>
    intro frames st o ho
    exact absurd ho (by simp [collect])
  | succ n ih =>
    intro frames st o ho hinv hf
    have hp := pollPass_inv cfg sched cams frames st hinv hf
    simp only [collect] at ho
    split_ifs at ho with h1 h2 h3 h4
    · cases ho
      exact hp
    · cases ho
      exact hp
    · cases ho
      exact hp
    · exact ih _ _ o ho hp.1 hp.2
    · refine ih _ _ o ho ?_ hp.2
      intro c
      exact hp.1 c

/-- Membership in a dict after assignment: an old pair or the new one. -/
theorem dictSet_mem (l : List (String × Held)) (c : String) (h : Held) :
    ∀ p ∈ dictSet l c h, p ∈ l ∨ p = (c, h) := by
  induction l with
  | nil =>
    intro p hp
    simp only [dictSet] at hp
    exact Or.inr (List.mem_singleton.1 hp)
  | cons q r ih =>
    intro p hp
    simp only [dictSet] at hp
    by_cases hq : q.1 = c
    · rw [if_pos hq] at hp
      rcases List.mem_cons.1 hp with hp | hp
      · exact Or.inr hp
      · exact Or.inl (List.mem_cons_of_mem _ hp)
    · rw [if_neg hq] at hp
      rcases List.mem_cons.1 hp with hp | hp
      · exact Or.inl (hp ▸ List.mem_cons_self q r)
      · rcases ih p hp with hp | hp
        · exact Or.inl (List.mem_cons_of_mem _ hp)
        · exact Or.inr hp

/-- The retry re-poll only stores pops at indices at or past each polled
camera's current count, and counts never decrease. -/
theorem repollAll_inv (sched : Sched) (now : Nat) (cams : List String)
    (captured : List (String × Held)) (consumed : String → Nat) (wf : Nat)
    (hcs : ∀ x ∈ cams, wf ≤ consumed x) (hf : FramesOk wf captured) :
    FramesOk wf (repollAll sched now cams captured consumed).1 ∧
    ∀ x, consumed x ≤ (repollAll sched now cams captured consumed).2 x := by
  unfold repollAll
  refine @foldl_pres String (List (String × Held) × (String → Nat))
    (fun acc => FramesOk wf acc.1 ∧ ∀ x, consumed x ≤ acc.2 x)
    (repollStep sched now) cams ?_ (captured, consumed) ⟨hf, fun x => Nat.le_refl _⟩
  intro acc a ha hP
  simp only [repollStep]
  split_ifs with hq
  · constructor
    · intro p hp
      rcases dictSet_mem acc.1 a _ p hp with hp | hp
      · exact hP.1 p hp
      · rw [hp]
        show wf ≤ acc.2 a
        exact le_trans (hcs a ha) (hP.2 a)
    · intro x
      by_cases hx : x = a
      · subst hx
        show consumed x ≤ upd acc.2 x (acc.2 x + 1) x
        unfold upd
        rw [if_pos rfl]
        exact le_trans (hP.2 x) (Nat.le_succ _)
      · show consumed x ≤ upd acc.2 a (acc.2 a + 1) x
        rw [upd_other _ _ _ _ hx]
        exact hP.2 x
  · exact hP

/-- The brightness gate only stores post-warm-up pops and never decreases
the pop counts. -/
theorem brightLoop_inv (sched : Sched) (cams : List String) (mb : Rat)
    (bretry bwait : Nat) (wf : Nat) :
    ∀ gas captured consumed now,
      (∀ x ∈ cams, wf ≤ consumed x) → FramesOk wf captured →
      FramesOk wf (brightLoop sched cams mb bretry bwait gas captured consumed now).captured ∧
      ∀ x, consumed x ≤ (brightLoop sched cams mb bretry bwait gas captured consumed now).consumed x := by
  intro gas
  induction gas with
  | zero => intro captured consumed now _ hf; exact ⟨hf, fun x => Nat.le_refl _⟩
  | succ g ih =>
    intro captured consumed now hcs hf
    simp only [brightLoop]
    split_ifs with h1 h2
    · exact ⟨hf, fun x => Nat.le_refl _⟩
    · exact ⟨hf, fun x => Nat.le_refl _⟩
    · have hrp := repollAll_inv sched (now + bwait) cams captured consumed wf hcs hf
      have hrec := ih (repollAll sched (now + bwait) cams captured consumed).1
        (repollAll sched (now + bwait) cams captured consumed).2 (now + bwait)
        (fun x hx => le_trans (hcs x hx) (hrp.2 x)) hrp.1
      exact ⟨hrec.1, fun x => le_trans (hrp.2 x) (hrec.2 x)⟩

/-- The sharpness gate only stores post-warm-up pops and never decreases
the pop counts. -/
theorem sharpLoop_inv (sched : Sched) (cams : List String) (ms : Rat)
    (sframes : Nat) (wf : Nat) :
    ∀ gas captured consumed now,
      (∀ x ∈ cams, wf ≤ consumed x) → FramesOk wf captured →
      FramesOk wf (sharpLoop sched cams ms sframes gas captured consumed now).captured ∧
      ∀ x, consumed x ≤ (sharpLoop sched cams ms sframes gas captured consumed now).consumed x := by
  intro gas
  induction gas with
  | zero => intro captured consumed now _ hf; exact ⟨hf, fun x => Nat.le_refl _⟩
  | succ g ih =>
    intro captured consumed now hcs hf
    simp only [sharpLoop]
    split_ifs with h1 h2
    · exact ⟨hf, fun x => Nat.le_refl _⟩
    · have hrp := repollAll_inv sched (now + 300) cams captured consumed wf hcs hf
      have hrec := ih (repollAll sched (now + 300) cams captured consumed).1
        (repollAll sched (now + 300) cams captured consumed).2 (now + 300)
        (fun x hx => le_trans (hcs x hx) (hrp.2 x)) hrp.1
      exact ⟨hrec.1, fun x => le_trans (hrp.2 x) (hrec.2 x)⟩
    · exact ⟨hf, fun x => Nat.le_refl _⟩

/-- The brightness stage of the capture block preserves the held-frame
bound and count monotonicity. -/
theorem gate1_inv (cfg : Config) (sched : Sched) (cams : List String)
    (frames : List (String × Held)) (consumed : String → Nat) (now : Nat)
    (hcs : ∀ x ∈ cams, cfg.warmup_frames ≤ consumed x)
    (hf : FramesOk cfg.warmup_frames frames) :
    FramesOk cfg.warmup_frames (gate1 cfg sched cams frames consumed now).captured ∧
    ∀ x, consumed x ≤ (gate1 cfg sched cams frames consumed now).consumed x := by
  unfold gate1
  cases cfg.min_brightness with
  | none => exact ⟨hf, fun x => Nat.le_refl _⟩
  | some mb =>
    exact brightLoop_inv sched cams mb cfg.brightness_retry cfg.brightness_wait
      cfg.warmup_frames (cfg.brightness_retry + 1) frames consumed now hcs hf

/-- The sharpness stage of the capture block preserves the held-frame
bound and count monotonicity. -/
theorem gate2_inv (cfg : Config) (sched : Sched) (cams : List String)
    (captured : List (String × Held)) (consumed : String → Nat) (now : Nat)
    (hcs : ∀ x ∈ cams, cfg.warmup_frames ≤ consumed x)
    (hf : FramesOk cfg.warmup_frames captured) :
    FramesOk cfg.warmup_frames (gate2 cfg sched cams captured consumed now).captured ∧
    ∀ x, consumed x ≤ (gate2 cfg sched cams captured consumed now).consumed x := by
  unfold gate2
  cases cfg.min_sharpness with
  | none => exact ⟨hf, fun x => Nat.le_refl _⟩
  | some ms =>
    exact sharpLoop_inv sched cams ms cfg.sharpness_frames cfg.warmup_frames 3
      captured consumed now hcs hf

/-- The capture block emits only post-warm-up frames (when every camera
is inside the camera list and the minimum is at least one warm frame) and
preserves the counter invariant. -/
theorem captureStage_inv (cfg : Config) (sched : Sched) (cams : List String)
    (frames : List (String × Held)) (st : St)
    (hmin : 1 ≤ cfg.min_frames_each)
    (hinv : CtrInv cfg.warmup_frames st) (hf : FramesOk cfg.warmup_frames frames) :
    (∀ b, (captureStage cfg sched cams frames st).batch = some b →
      FramesOk cfg.warmup_frames b) ∧
    CtrInv cfg.warmup_frames (captureStage cfg sched cams frames st).st := by
  unfold captureStage
  by_cases hl : cams.filter (fun c => st.perCam c < cfg.min_frames_each) = []
  · rw [if_pos hl]
    have hcs : ∀ x ∈ cams, cfg.warmup_frames ≤ st.consumed x := by
      intro x hx
      have hnl := List.filter_eq_nil_iff.1 hl x hx
      simp only [decide_eq_true_eq] at hnl
      have hpc : 1 ≤ st.perCam x := le_trans hmin (Nat.le_of_not_lt hnl)
      exact le_trans ((hinv x).2.2 hpc) (hinv x).1
    have hg1 := gate1_inv cfg sched cams frames st.consumed st.now hcs hf
    have hg2 := gate2_inv cfg sched cams
      (gate1 cfg sched cams frames st.consumed st.now).captured
      (gate1 cfg sched cams frames st.consumed st.now).consumed
      (gate1 cfg sched cams frames st.consumed st.now).now
      (fun x hx => le_trans (hcs x hx) (hg1.2 x)) hg1.1
    constructor
    · intro b hb
      have hbe : b = (gate2 cfg sched cams
          (gate1 cfg sched cams frames st.consumed st.now).captured
          (gate1 cfg sched cams frames st.consumed st.now).consumed
          (gate1 cfg sched cams frames st.consumed st.now).now).captured :=
        (Option.some.inj hb).symm
      rw [hbe]
      exact hg2.1
    · intro x
      rcases hinv x with ⟨ha, hb, hc3⟩
      exact ⟨le_trans ha (le_trans (hg1.2 x) (hg2.2 x)), hb, hc3⟩
  · rw [if_neg hl]
    exact ⟨fun b hb => absurd hb (by simp), hinv⟩

/-- One outer-loop iteration emits only post-warm-up frames and
preserves the counter invariant. -/
theorem cycle_inv (cfg : Config) (sched : Sched) (cams : List String) (cf : Nat)
    (st : St) (hmin : 1 ≤ cfg.min_frames_each) (hinv : CtrInv cfg.warmup_frames st) :
    ∀ co, cycle cfg sched cams cf st = some co →
      (∀ b, co.batch = some b → FramesOk cfg.warmup_frames b) ∧
      CtrInv cfg.warmup_frames co.st := by
  intro co hco
  unfold cycle at hco
  cases hc : collect cfg sched cams st.now cf [] st with
  | none =>
    rw [hc] at hco
    exact absurd hco (by simp)
  | some c0 =>
    have hcol := collect_inv cfg sched cams st.now cf [] st c0 hc hinv
      (fun p hp => absurd hp (by simp))
    simp only [hc] at hco
    have hcoe : co = cycleStep cfg sched cams c0 := (Option.some.inj hco).symm
    subst hcoe
    unfold cycleStep
    split_ifs with h1
    · exact captureStage_inv cfg sched cams c0.frames (postCollectSt cfg c0) hmin
        (fun c => hcol.1 c) hcol.2
    · exact ⟨fun b hb => absurd hb (by simp), fun c => hcol.1 c⟩

/-- Every batch emitted along a run consists of post-warm-up frames. -/
theorem runLoop_inv (cfg : Config) (sched : Sched) (cams : List String) (cf : Nat)
    (hmin : 1 ≤ cfg.min_frames_each) :
    ∀ (n : Nat) (st : St), CtrInv cfg.warmup_frames st →
      ∀ b ∈ (runLoop cfg sched cams cf n st).batches, FramesOk cfg.warmup_frames b := by
  intro n
  induction n with
  | zero => intro st _ b hb; exact absurd hb (by simp [runLoop])
  | succ m ih =>
    intro st hinv b hb
    simp only [runLoop] at hb
    cases hco : cycle cfg sched cams cf st with
    | none =>
      simp only [hco] at hb
      exact absurd hb (by simp)
    | some co =>
      simp only [hco] at hb
      have hcy := cycle_inv cfg sched cams cf st hmin hinv co hco
      by_cases hx : co.exitLoop = true
      · rw [if_pos hx] at hb
        cases hbatch : co.batch with
        | none =>
          simp only [hbatch] at hb
          exact absurd hb (by simp)
        | some b0 =>
          simp only [hbatch] at hb
          have hbe : b = b0 := by simpa using hb
          rw [hbe]
          exact hcy.1 b0 hbatch
      · rw [if_neg hx] at hb
        cases hbatch : co.batch with
        | none =>
          simp only [hbatch, List.nil_append] at hb
          exact ih co.st hcy.2 b hb
        | some b0 =>
          simp only [hbatch, List.cons_append, List.nil_append] at hb
          rcases List.mem_cons.1 hb with hb | hb
          · rw [hb]
            exact hcy.1 b0 hbatch
          · exact ih co.st hcy.2 b hb

/-- C2: in any run from the initial state with `min_frames_each ≥ 1`
(the configuration surface requires at least one warm frame per camera),
every frame of every emitted batch is at least the
`(warmup_frames + 1)`-th frame popped from its camera's queue — on every
path that adds a frame to a batch, including the brightness and sharpness
retry re-polls, which can only pop at indices past each camera's already
completed warm-up. -/
theorem emitted_frames_past_warmup (cfg : Config) (sched : Sched)
    (cams : List String) (cf n : Nat) (hmin : 1 ≤ cfg.min_frames_each)
    (b : List (String × Held)) (hb : b ∈ (runLoop cfg sched cams cf n initSt).batches)
    (p : String × Held) (hp : p ∈ b) :
    cfg.warmup_frames ≤ p.2.idx := by
  have hinit : CtrInv cfg.warmup_frames initSt := by
    intro c
    exact ⟨Nat.le_refl 0, Nat.zero_le _, fun h => absurd h (by simp [initSt])⟩
  exact runLoop_inv cfg sched cams cf hmin n initSt hinit b hb p hp

/-- Witness for C2: the one-shot run emits the batch holding camera A's
second pop (index 1), which indeed is past the warm-up threshold. -/
theorem emitted_frames_past_warmup_witness :
    1 ≤ cfgWarm.min_frames_each ∧
    [("A", { idx := 1, frame := f100 })] ∈ (runLoop cfgWarm schedWarm ["A"] 1 3 initSt).batches ∧
    ("A", { idx := 1, frame := f100 }) ∈
      [("A", ({ idx := 1, frame := f100 } : Held))] ∧
    cfgWarm.warmup_frames ≤ 1 := by
  refine ⟨by decide, by decide, by decide, ?_⟩
  exact emitted_frames_past_warmup cfgWarm schedWarm ["A"] 1 3 (by decide)
    [("A", { idx := 1, frame := f100 })] (by decide)
    ("A", { idx := 1, frame := f100 }) (by decide)
